import Mathlib

/-!
# laser_simulator.cpp: a shallow embedding

The embedding follows `src/src/laser_simulator.cpp` function by function.

Conventions of the embedding:

* `double` / `float` values are exact rationals (`ℚ`); rounding, NaN and
  infinities are not modelled.  `std::numeric_limits<double>::max()` is the
  top element of `WithTop ℚ`, a value above every rational.  The two
  coordinate transforms are also given with the rounding of each operation
  (`get_world2map_coordinates_fl`, `get_map2world_coordinates_fl`), for the
  statements that rounding decides.
* `int` values are `ℤ`; `unsigned int` values are `ℕ`.  The index computed by
  `get_map_occupancy` is reduced modulo `2^32` as the unsigned arithmetic of
  the source does.  The beam counter `i` of `update_scan` is not reduced: the
  model of that loop is the source's as long as `l_beams + 1 < 2^32`.
* division is the total division of `ℚ`; statements about quotients by
  `resolution` or `l_beams` assume the divisor positive.
* `cos`, `sin` and `sqrt` come from the C math library, which is not part of
  the repository: they are the fields of a `Libm` record the functions take
  as a parameter.
* the process-wide variables (`map`, `l_frame`, `l_fov`, ...) are the fields
  of the explicit state `Sim`.
* `while (true)` is a recursion on a fuel counter, one unit per iteration.
* reading `map.data` outside its bounds aborts with `Abort.fault`.
-/

namespace laser_sim

/-- The three functions of the C math library the simulator calls. -/
structure Libm where
  cos : ℚ → ℚ
  sin : ℚ → ℚ
  sqrt : ℚ → ℚ

/-- The fields of `nav_msgs::OccupancyGrid` the simulator reads. -/
structure OccupancyGrid where
  width : ℕ
  height : ℕ
  resolution : ℚ
  origin_x : ℚ
  origin_y : ℚ
  data : List ℤ

/-- The process-wide variables of the simulator. -/
structure Sim where
  map : OccupancyGrid
  l_frame : String
  l_fov : ℚ
  l_beams : ℕ
  l_max_range : ℚ
  l_min_range : ℚ
  l_frequency : ℚ

/-- The fields of `sensor_msgs::LaserScan` written by `update_scan`. -/
structure LaserScan where
  frame_id : String
  stamp : ℚ
  angle_min : ℚ
  angle_max : ℚ
  angle_increment : ℚ
  time_increment : ℚ
  scan_time : ℚ
  range_min : ℚ
  range_max : ℚ
  ranges : List ℚ

/-- Ways a run can fail to return a value. -/
inductive Abort
  | fault
  | timeout
  deriving DecidableEq

/-- `set_laser_params` (lines 27-37): six unconditional assignments. -/
def set_laser_params (s : Sim) (frame_id : String) (fov : ℚ) (beam_count : ℕ)
    (max_range min_range update_frequency : ℚ) : Sim :=
  { s with
    l_frame := frame_id
    l_fov := fov
    l_beams := beam_count
    l_max_range := max_range
    l_min_range := min_range
    l_frequency := update_frequency }

/-- `get_world2map_coordinates` (lines 184-190). -/
def get_world2map_coordinates (map : OccupancyGrid) (world_x world_y : ℚ) : ℤ × ℤ :=
  (⌊(world_x - map.origin_x) / map.resolution⌋,
   ⌊(world_y - map.origin_y) / map.resolution⌋)

/-- `get_map2world_coordinates` (lines 192-198). -/
def get_map2world_coordinates (map : OccupancyGrid) (map_x map_y : ℤ) : ℚ × ℚ :=
  ((map_x : ℚ) * map.resolution + map.origin_x,
   (map_y : ℚ) * map.resolution + map.origin_y)

/-- The index `y*map.info.width + x` of line 203, in 32-bit unsigned arithmetic. -/
def cell_index (map : OccupancyGrid) (x y : ℤ) : ℕ :=
  ((y * (map.width : ℤ) + x) % (2 ^ 32 : ℤ)).toNat

/-- `get_map_occupancy` (lines 200-204); `none` when the index is outside `map.data`. -/
def get_map_occupancy (map : OccupancyGrid) (x y : ℤ) : Option ℤ :=
  map.data.get? (cell_index map x y)

/-- The variables the traversal loop of `find_map_range` updates. -/
structure Ray where
  current0 : ℤ
  current1 : ℤ
  tMax0 : WithTop ℚ
  tMax1 : WithTop ℚ

/-- The variables the traversal loop of `find_map_range` only reads. -/
structure RaySetup where
  start_x : ℤ
  start_y : ℤ
  step0 : ℤ
  step1 : ℤ
  tDelta0 : WithTop ℚ
  tDelta1 : WithTop ℚ

/-- Lines 155-160: choose `dim` and advance one voxel along it. -/
def advance (c : RaySetup) (r : Ray) : Ray :=
  if r.tMax0 < r.tMax1 then
    { r with current0 := r.current0 + c.step0, tMax0 := r.tMax0 + c.tDelta0 }
  else
    { r with current1 := r.current1 + c.step1, tMax1 := r.tMax1 + c.tDelta1 }

/-- The test of line 163. -/
def outside_map (map : OccupancyGrid) (x y : ℤ) : Bool :=
  decide (x < 0) || decide (x ≥ (map.width : ℤ)) || decide (y < 0) || decide (y ≥ (map.height : ℤ))

/-- Line 168. -/
def current_range (m : Libm) (map : OccupancyGrid) (c : RaySetup) (r : Ray) : ℚ :=
  m.sqrt (((r.current0 - c.start_x : ℤ) : ℚ) ^ 2 + ((r.current1 - c.start_y : ℤ) : ℚ) ^ 2)
    * map.resolution

/-- The loop of lines 152-181.  The second component lists, in call order, the
arguments of the calls of `get_map_occupancy`. -/
def ray_loop (m : Libm) (s : Sim) (c : RaySetup) : ℕ → Ray → Except Abort ℚ × List (ℤ × ℤ)
  | 0, _ => (.error .timeout, [])
  | fuel + 1, r =>
    let r1 := advance c r
    if outside_map s.map r1.current0 r1.current1 then (.ok s.l_max_range, [])
    else
      let cr := current_range m s.map c r1
      if cr > s.l_max_range then (.ok s.l_max_range, [])
      else
        match get_map_occupancy s.map r1.current0 r1.current1 with
        | none => (.error .fault, [(r1.current0, r1.current1)])
        | some occ =>
          if occ ≥ 60 then
            if cr < s.l_min_range then
              let rest := ray_loop m s c fuel r1
              (rest.1, (r1.current0, r1.current1) :: rest.2)
            else (.ok cr, [(r1.current0, r1.current1)])
          else
            let rest := ray_loop m s c fuel r1
            (rest.1, (r1.current0, r1.current1) :: rest.2)

/-- Lines 99-107: the start cell, re-derived from a projected point when the
cell of `(x, y)` is outside the map.  `abs` is the absolute value of a `double`. -/
def start_cell (map : OccupancyGrid) (x y dir0 dir1 : ℚ) : ℤ × ℤ :=
  let st := get_world2map_coordinates map x y
  if st.1 < 0 ∨ st.2 < 0 ∨ st.1 ≥ (map.width : ℤ) ∨ st.2 ≥ (map.height : ℤ) then
    let delta_x := |map.origin_x - x|
    let delta_y := |map.origin_y - y|
    let intersect_x := x + dir0 * delta_x
    let intersect_y := y + dir1 * delta_y
    get_world2map_coordinates map intersect_x intersect_y
  else st

/-- Lines 124-126: the step direction of one axis. -/
def step_of (dir : ℚ) : ℤ :=
  if dir > 0 then -1 else if dir < 0 then 1 else 0

/-- Lines 129-145, `tMax[i]`; `border` is `voxel_border[i]` after lines 118-119. -/
def tMax_of (resolution border origin dir : ℚ) : WithTop ℚ :=
  if step_of dir ≠ 0 then
    let border1 := if step_of dir = 1 then border + ((step_of dir : ℤ) : ℚ) * resolution * 1 else border
    (((border1 - origin) / dir : ℚ) : WithTop ℚ)
  else ⊤

/-- Lines 129-145, `tDelta[i]`. -/
def tDelta_of (resolution dir : ℚ) : WithTop ℚ :=
  if step_of dir ≠ 0 then ((resolution / |dir| : ℚ) : WithTop ℚ) else ⊤

/-- Lines 112-147: the loop constants for a ray from `(x, y)` along `(dir0, dir1)`. -/
def ray_setup (map : OccupancyGrid) (x y dir0 dir1 : ℚ) : RaySetup :=
  let st := start_cell map x y dir0 dir1
  { start_x := st.1
    start_y := st.2
    step0 := step_of dir0
    step1 := step_of dir1
    tDelta0 := tDelta_of map.resolution dir0
    tDelta1 := tDelta_of map.resolution dir1 }

/-- Lines 108-147: the loop variables on entry to the loop. -/
def ray_init (map : OccupancyGrid) (x y dir0 dir1 : ℚ) : Ray :=
  let st := start_cell map x y dir0 dir1
  let w := get_map2world_coordinates map st.1 st.2
  let voxel_border0 := w.1 - (1 / 2) * map.resolution
  let voxel_border1 := w.2 - (1 / 2) * map.resolution
  { current0 := st.1
    current1 := st.2
    tMax0 := tMax_of map.resolution voxel_border0 x dir0
    tMax1 := tMax_of map.resolution voxel_border1 y dir1 }

/-- `find_map_range` (lines 87-182) together with the list of cells it passed
to `get_map_occupancy`. -/
def find_map_range_calls (m : Libm) (s : Sim) (fuel : ℕ) (x y theta : ℚ) :
    Except Abort ℚ × List (ℤ × ℤ) :=
  let dir0 := m.cos theta
  let dir1 := m.sin theta
  ray_loop m s (ray_setup s.map x y dir0 dir1) fuel (ray_init s.map x y dir0 dir1)

/-- `find_map_range` (lines 87-182). -/
def find_map_range (m : Libm) (s : Sim) (fuel : ℕ) (x y theta : ℚ) : Except Abort ℚ :=
  (find_map_range_calls m s fuel x y theta).1

/-- The `for` loop of lines 74-79, entered with loop counter `i`. -/
def scan_loop (m : Libm) (s : Sim) (fuel : ℕ) (x y theta angle_min angle_increment : ℚ)
    (i : ℕ) (ranges : List ℚ) : Except Abort (List ℚ) :=
  if i ≤ s.l_beams then
    let this_ang := theta - angle_min + (i : ℚ) * angle_increment
    match find_map_range m s fuel x y this_ang with
    | .ok this_range =>
      scan_loop m s fuel x y theta angle_min angle_increment (i + 1) (ranges ++ [this_range])
    | .error e => .error e
  else .ok ranges
termination_by s.l_beams + 1 - i

/-- `update_scan` (lines 59-85); `now` is the value of `ros::Time::now()`. -/
def update_scan (m : Libm) (s : Sim) (fuel : ℕ) (now : ℚ) (x y theta : ℚ) :
    Except Abort LaserScan :=
  let angle_min := -s.l_fov / 2
  let angle_max := s.l_fov / 2
  let angle_increment := s.l_fov / (s.l_beams : ℚ)
  let range_min := s.l_min_range
  let range_max := s.l_max_range + 1 / 1000
  match scan_loop m s fuel x y theta angle_min angle_increment 0 [] with
  | .ok ranges =>
    .ok { frame_id := s.l_frame
          stamp := now
          angle_min := angle_min
          angle_max := angle_max
          angle_increment := angle_increment
          time_increment := (1 / s.l_frequency) / (s.l_beams : ℚ)
          scan_time := 1 / s.l_frequency
          range_min := range_min
          range_max := range_max
          ranges := ranges }
  | .error e => .error e

/-- A rational stand-in for the math library: headings are mapped to the unit
circle by the tangent half-angle formulas, `sqrt` is exact on squares. -/
def ratLibm : Libm where
  cos := fun t => (1 - t ^ 2) / (1 + t ^ 2)
  sin := fun t => 2 * t / (1 + t ^ 2)
  sqrt := Rat.sqrt

/-- A `w` by `h` grid of resolution 1 at the origin with the given cells. -/
def unit_grid (w h : ℕ) (cells : List ℤ) : OccupancyGrid where
  width := w
  height := h
  resolution := 1
  origin_x := 0
  origin_y := 0
  data := cells

/-- The 10 by 10 grid whose only occupied cell is `(5, 0)`, with value 100. -/
def grid_5_0 : OccupancyGrid :=
  unit_grid 10 10 ((List.replicate 100 (0 : ℤ)).set 5 100)

/-- A simulator state over `grid_5_0`: 4 beams over a half turn, ranges 1/10 to 8. -/
def sim_5_0 : Sim where
  map := grid_5_0
  l_frame := "laser"
  l_fov := 3
  l_beams := 4
  l_max_range := 8
  l_min_range := 1 / 10
  l_frequency := 10

/-- A simulator state over an all-free 3 by 3 grid of resolution 1. -/
def sim_free : Sim where
  map := unit_grid 3 3 (List.replicate 9 (0 : ℤ))
  l_frame := "laser"
  l_fov := 3
  l_beams := 4
  l_max_range := 8
  l_min_range := 1 / 10
  l_frequency := 10

/-- Loop invariant: an axis whose step is 0 has `tMax = max` and is never the
one `advance` chooses. -/
def Driven (c : RaySetup) (r : Ray) : Prop :=
  (c.step0 = 1 ∨ c.step0 = -1 ∨ (c.step0 = 0 ∧ r.tMax0 = ⊤)) ∧
  (c.step1 = 1 ∨ c.step1 = -1 ∨
    (c.step1 = 0 ∧ r.tMax1 = ⊤ ∧ r.tMax0 ≠ ⊤ ∧ c.tDelta0 ≠ ⊤))

instance (c : RaySetup) (r : Ray) : Decidable (Driven c r) := by
  unfold Driven
  infer_instance

/-- One iteration changed exactly one of the two cell indices, by exactly one. -/
def MovedOne (r r1 : Ray) : Prop :=
  ((r1.current0 = r.current0 + 1 ∨ r1.current0 = r.current0 - 1) ∧ r1.current1 = r.current1) ∨
  (r1.current0 = r.current0 ∧ (r1.current1 = r.current1 + 1 ∨ r1.current1 = r.current1 - 1))

instance (r r1 : Ray) : Decidable (MovedOne r r1) := by
  unfold MovedOne
  infer_instance

/-- Number of moves along one axis after which the index has left `[0, size)`. -/
def exit_dist (step : ℤ) (size : ℕ) (cur : ℤ) : ℤ :=
  if step = 1 then (size : ℤ) - cur else if step = -1 then cur + 1 else 1

/-- Bound on the number of iterations left for a ray whose cell is inside the map. -/
def budget (map : OccupancyGrid) (c : RaySetup) (r : Ray) : ℤ :=
  exit_dist c.step0 map.width r.current0 + exit_dist c.step1 map.height r.current1 - 1

/-- Lines 163-180 for the cell the loop has just advanced to: `some v` when the
function leaves the loop there with `v`, `none` when the loop goes on. -/
def examine (m : Libm) (s : Sim) (c : RaySetup) (r1 : Ray) : Option (Except Abort ℚ) :=
  if outside_map s.map r1.current0 r1.current1 then some (.ok s.l_max_range)
  else
    let cr := current_range m s.map c r1
    if cr > s.l_max_range then some (.ok s.l_max_range)
    else
      match get_map_occupancy s.map r1.current0 r1.current1 with
      | none => some (.error .fault)
      | some occ =>
        if occ ≥ 60 then
          if cr < s.l_min_range then none else some (.ok cr)
        else none

/-- Line 76 with lines 62 and 64 substituted: the heading of beam `i`. -/
def beam_heading (s : Sim) (theta : ℚ) (i : ℕ) : ℚ :=
  theta - (-s.l_fov / 2) + (i : ℚ) * (s.l_fov / (s.l_beams : ℚ))

/-- The loop variables of `find_map_range` after `n` iterations of lines 155-160. -/
def visited (m : Libm) (s : Sim) (x y theta : ℚ) (n : ℕ) : Ray :=
  (advance (ray_setup s.map x y (m.cos theta) (m.sin theta)))^[n]
    (ray_init s.map x y (m.cos theta) (m.sin theta))

/-- Number of moves made from the start cell, each counted along its step. -/
def disp (c : RaySetup) (r : Ray) : ℤ :=
  (r.current0 - c.start_x) * c.step0 + (r.current1 - c.start_y) * c.step1

/-- A simulator state over a free 3 by 3 grid except for cell (0, 0), of value 100. -/
def sim_start_occupied : Sim where
  map := unit_grid 3 3 ((List.replicate 9 (0 : ℤ)).set 0 100)
  l_frame := "laser"
  l_fov := 3
  l_beams := 4
  l_max_range := 8
  l_min_range := 1 / 10
  l_frequency := 10

/-! ## The coordinate transforms in floating point

The two coordinate transforms once more, with the rounding of every
floating-point operation of lines 186-187 and 194-195.  A result that is not
a finite number, or that the source leaves undefined, is `none`.  The
arguments and the map's `resolution` (a `float`) and origin (a `double`) are
taken as values of their types. -/

/-- Round to the nearest integer, ties to the even one. -/
def round_even (x : ℚ) : ℤ :=
  if x - (⌊x⌋ : ℚ) < 1 / 2 then ⌊x⌋
  else if 1 / 2 < x - (⌊x⌋ : ℚ) then ⌊x⌋ + 1
  else if ⌊x⌋ % 2 = 0 then ⌊x⌋ else ⌊x⌋ + 1

/-- Round to the nearest number of a binary floating-point format with `p`
significant bits and exponents from `emin` to `emax`, ties to even.  Below
`2^emin` the numbers of the format are the multiples of `2^(emin - (p - 1))`;
`none` stands for an infinity. -/
def fp_round (p : ℕ) (emin emax : ℤ) (q : ℚ) : Option ℚ :=
  if |(round_even (q / (2 : ℚ) ^ (max (Int.log 2 |q|) emin - ((p : ℤ) - 1))) : ℚ) *
      (2 : ℚ) ^ (max (Int.log 2 |q|) emin - ((p : ℤ) - 1))| < (2 : ℚ) ^ (emax + 1) then
    some ((round_even (q / (2 : ℚ) ^ (max (Int.log 2 |q|) emin - ((p : ℤ) - 1))) : ℚ) *
      (2 : ℚ) ^ (max (Int.log 2 |q|) emin - ((p : ℤ) - 1)))
  else none

/-- Rounding to `float`: 24 significant bits, exponents -126 to 127. -/
def to_float (q : ℚ) : Option ℚ := fp_round 24 (-126) 127 q

/-- Rounding to `double`: 53 significant bits, exponents -1022 to 1023. -/
def to_double (q : ℚ) : Option ℚ := fp_round 53 (-1022) 1023 q

/-- The conversion `(int)` of lines 186-187, defined inside the range of `int`. -/
def int_cast (z : ℤ) : Option ℤ :=
  if -(2 ^ 31) ≤ z ∧ z < 2 ^ 31 then some z else none

/-- `get_world2map_coordinates` (lines 184-190) in floating point: the
difference and the quotient are rounded to `double`, the floor is converted
to `int`. -/
def get_world2map_coordinates_fl (map : OccupancyGrid) (world_x world_y : ℚ) :
    Option (ℤ × ℤ) := do
  let dx ← to_double (world_x - map.origin_x)
  let qx ← to_double (dx / map.resolution)
  let map_x ← int_cast ⌊qx⌋
  let dy ← to_double (world_y - map.origin_y)
  let qy ← to_double (dy / map.resolution)
  let map_y ← int_cast ⌊qy⌋
  pure (map_x, map_y)

/-- `get_map2world_coordinates` (lines 192-198) in floating point: the `int`
index is converted to `float`, the product with the `float` resolution is
rounded to `float`, the sum with the `double` origin to `double`. -/
def get_map2world_coordinates_fl (map : OccupancyGrid) (map_x map_y : ℤ) : Option (ℚ × ℚ) := do
  let fx ← to_float (map_x : ℚ)
  let px ← to_float (fx * map.resolution)
  let world_x ← to_double (px + map.origin_x)
  let fy ← to_float (map_y : ℚ)
  let py ← to_float (fy * map.resolution)
  let world_y ← to_double (py + map.origin_y)
  pure (world_x, world_y)

/-- Lines 194-195 compute the corner coordinate of index `c` without rounding. -/
def corner_exact (resolution origin : ℚ) (c : ℤ) : Prop :=
  |c| < 2 ^ 24 ∧ to_float ((c : ℚ) * resolution) = some ((c : ℚ) * resolution) ∧
    to_double ((c : ℚ) * resolution + origin) = some ((c : ℚ) * resolution + origin)

instance (resolution origin : ℚ) (c : ℤ) : Decidable (corner_exact resolution origin c) := by
  unfold corner_exact
  infer_instance

/-- Lines 186-187 compute the index of the coordinate `w` without rounding
error: the difference is exact and rounding the quotient keeps its floor. -/
def index_exact (resolution origin w : ℚ) : Prop :=
  to_double (w - origin) = some (w - origin) ∧
    (to_double ((w - origin) / resolution)).map (fun t => ⌊t⌋) =
      some ⌊(w - origin) / resolution⌋

instance (resolution origin w : ℚ) : Decidable (index_exact resolution origin w) := by
  unfold index_exact
  infer_instance

/-- The `float` nearest to 0.05. -/
def res_005 : ℚ := 13421773 / 268435456

/-- A free 10 by 10 grid of resolution 0.05f with its origin at (0, 0). -/
def grid_005 : OccupancyGrid where
  width := 10
  height := 10
  resolution := res_005
  origin_x := 0
  origin_y := 0
  data := List.replicate 100 (0 : ℤ)

/-! ## Unfolding the loop -/

theorem ray_loop_zero (m : Libm) (s : Sim) (c : RaySetup) (r : Ray) :
    ray_loop m s c 0 r = (.error .timeout, []) := rfl

theorem ray_loop_succ (m : Libm) (s : Sim) (c : RaySetup) (fuel : ℕ) (r : Ray) :
    ray_loop m s c (fuel + 1) r =
      if outside_map s.map (advance c r).current0 (advance c r).current1 then
        (.ok s.l_max_range, [])
      else if current_range m s.map c (advance c r) > s.l_max_range then
        (.ok s.l_max_range, [])
      else
        match get_map_occupancy s.map (advance c r).current0 (advance c r).current1 with
        | none => (.error .fault, [((advance c r).current0, (advance c r).current1)])
        | some occ =>
          if occ ≥ 60 then
            if current_range m s.map c (advance c r) < s.l_min_range then
              ((ray_loop m s c fuel (advance c r)).1,
                ((advance c r).current0, (advance c r).current1) ::
                  (ray_loop m s c fuel (advance c r)).2)
            else
              (.ok (current_range m s.map c (advance c r)),
                [((advance c r).current0, (advance c r).current1)])
          else
            ((ray_loop m s c fuel (advance c r)).1,
              ((advance c r).current0, (advance c r).current1) ::
                (ray_loop m s c fuel (advance c r)).2) := rfl

theorem outside_map_eq_false {map : OccupancyGrid} {x y : ℤ}
    (h : outside_map map x y = false) :
    0 ≤ x ∧ x < (map.width : ℤ) ∧ 0 ≤ y ∧ y < (map.height : ℤ) := by
  simp only [outside_map, Bool.or_eq_false_iff, decide_eq_false_iff_not, not_lt, ge_iff_le,
    not_le] at h
  exact ⟨h.1.1.1, h.1.1.2, h.1.2, h.2⟩

theorem outside_map_eq_false_iff {map : OccupancyGrid} {x y : ℤ} :
    outside_map map x y = false ↔
      0 ≤ x ∧ x < (map.width : ℤ) ∧ 0 ≤ y ∧ y < (map.height : ℤ) := by
  constructor
  · exact outside_map_eq_false
  · rintro ⟨h1, h2, h3, h4⟩
    simp only [outside_map, Bool.or_eq_false_iff, decide_eq_false_iff_not, not_lt, ge_iff_le,
      not_le]
    exact ⟨⟨⟨h1, h2⟩, h3⟩, h4⟩

/-! ## The cell lookup -/

theorem cell_index_lt {map : OccupancyGrid} {x y : ℤ}
    (hx0 : 0 ≤ x) (hx : x < (map.width : ℤ)) (hy0 : 0 ≤ y) (hy : y < (map.height : ℤ)) :
    cell_index map x y < map.width * map.height := by
  have hw : (0 : ℤ) ≤ (map.width : ℤ) := Int.natCast_nonneg _
  have h1 : y * (map.width : ℤ) + x < (map.width : ℤ) * (map.height : ℤ) := by
    have : (y + 1) * (map.width : ℤ) ≤ (map.height : ℤ) * (map.width : ℤ) :=
      mul_le_mul_of_nonneg_right (by omega) hw
    nlinarith
  have h0 : 0 ≤ y * (map.width : ℤ) + x := by positivity
  have h2 : (y * (map.width : ℤ) + x) % (2 ^ 32 : ℤ) ≤ y * (map.width : ℤ) + x := by
    generalize y * (map.width : ℤ) + x = a at h0
    omega
  have h3 : 0 ≤ (y * (map.width : ℤ) + x) % (2 ^ 32 : ℤ) :=
    Int.emod_nonneg _ (by norm_num)
  have h4 : (((y * (map.width : ℤ) + x) % (2 ^ 32 : ℤ)).toNat : ℤ) <
      ((map.width * map.height : ℕ) : ℤ) := by
    rw [Int.toNat_of_nonneg h3, Nat.cast_mul]
    exact lt_of_le_of_lt h2 h1
  unfold cell_index
  exact_mod_cast h4

theorem get_map_occupancy_isSome {map : OccupancyGrid} {x y : ℤ}
    (hlen : map.data.length = map.width * map.height)
    (h : outside_map map x y = false) :
    ∃ occ, get_map_occupancy map x y = some occ := by
  obtain ⟨h1, h2, h3, h4⟩ := outside_map_eq_false h
  have hlt : cell_index map x y < map.data.length := by
    rw [hlen]; exact cell_index_lt h1 h2 h3 h4
  exact ⟨map.data.get ⟨_, hlt⟩, List.get?_eq_get hlt⟩

theorem get_map_occupancy_mem {map : OccupancyGrid} {x y occ : ℤ}
    (h : get_map_occupancy map x y = some occ) : occ ∈ map.data :=
  List.get?_mem h

/-! ## What the loop can return -/

theorem ray_loop_range (m : Libm) (s : Sim) (c : RaySetup) :
    ∀ (n : ℕ) (r : Ray) (q : ℚ), (ray_loop m s c n r).1 = .ok q →
      q = s.l_max_range ∨ (s.l_min_range ≤ q ∧ q ≤ s.l_max_range) := by
  intro n
  induction n with
  | zero =>
    intro r q h
    simp [ray_loop_zero] at h
  | succ n ih =>
    intro r q h
    rw [ray_loop_succ] at h
    split at h
    · left
      simpa using h.symm
    · split at h
      · left
        simpa using h.symm
      · rename_i hmax
        split at h
        · simp at h
        · split at h
          · split at h
            · exact ih _ _ h
            · rename_i hmin
              right
              have hq : current_range m s.map c (advance c r) = q := by simpa using h
              rw [← hq]
              exact ⟨not_lt.mp hmin, not_lt.mp hmax⟩
          · exact ih _ _ h

theorem ray_loop_free (m : Libm) (s : Sim) (c : RaySetup)
    (hfree : ∀ v ∈ s.map.data, v < 60) :
    ∀ (n : ℕ) (r : Ray) (q : ℚ), (ray_loop m s c n r).1 = .ok q → q = s.l_max_range := by
  intro n
  induction n with
  | zero =>
    intro r q h
    simp [ray_loop_zero] at h
  | succ n ih =>
    intro r q h
    rw [ray_loop_succ] at h
    split at h
    · simpa using h.symm
    · split at h
      · simpa using h.symm
      · split at h
        · simp at h
        · rename_i occ hocc
          have := hfree occ (get_map_occupancy_mem hocc)
          split at h
          · omega
          · exact ih _ _ h

theorem ray_loop_calls (m : Libm) (s : Sim) (c : RaySetup) :
    ∀ (n : ℕ) (r : Ray), ∀ p ∈ (ray_loop m s c n r).2, outside_map s.map p.1 p.2 = false := by
  intro n
  induction n with
  | zero =>
    intro r p hp
    simp [ray_loop_zero] at hp
  | succ n ih =>
    intro r p hp
    rw [ray_loop_succ] at hp
    split at hp
    · simp at hp
    · rename_i hout
      have hin : outside_map s.map (advance c r).current0 (advance c r).current1 = false := by
        simpa using hout
      split at hp
      · simp at hp
      · split at hp
        · simp only [List.mem_singleton] at hp
          rw [hp]; exact hin
        · split at hp
          · split at hp
            · rcases List.mem_cons.mp hp with h | h
              · rw [h]; exact hin
              · exact ih _ _ h
            · simp only [List.mem_singleton] at hp
              rw [hp]; exact hin
          · rcases List.mem_cons.mp hp with h | h
            · rw [h]; exact hin
            · exact ih _ _ h

theorem ray_loop_no_fault (m : Libm) (s : Sim) (c : RaySetup)
    (hlen : s.map.data.length = s.map.width * s.map.height) :
    ∀ (n : ℕ) (r : Ray), (ray_loop m s c n r).1 ≠ .error .fault := by
  intro n
  induction n with
  | zero =>
    intro r
    simp [ray_loop_zero]
  | succ n ih =>
    intro r
    rw [ray_loop_succ]
    split
    · simp
    · rename_i hout
      have hin : outside_map s.map (advance c r).current0 (advance c r).current1 = false := by
        simpa using hout
      obtain ⟨occ, hocc⟩ := get_map_occupancy_isSome hlen hin
      split
      · simp
      · rw [hocc]
        dsimp only
        split
        · split
          · exact ih _
          · simp
        · exact ih _

/-! ## Termination of the loop -/

theorem Driven.next {c : RaySetup} {r : Ray} (h : Driven c r) : Driven c (advance c r) := by
  obtain ⟨h0, h1⟩ := h
  unfold advance
  by_cases hlt : r.tMax0 < r.tMax1
  · rw [if_pos hlt]
    refine ⟨?_, ?_⟩
    · rcases h0 with h | h | ⟨_, h⟩
      · exact Or.inl h
      · exact Or.inr (Or.inl h)
      · rw [h] at hlt
        exact absurd hlt not_top_lt
    · rcases h1 with h | h | ⟨ha, hb, hc, hd⟩
      · exact Or.inl h
      · exact Or.inr (Or.inl h)
      · exact Or.inr (Or.inr ⟨ha, hb, WithTop.add_ne_top.mpr ⟨hc, hd⟩, hd⟩)
  · rw [if_neg hlt]
    refine ⟨?_, ?_⟩
    · rcases h0 with h | h | ⟨ha, hb⟩
      · exact Or.inl h
      · exact Or.inr (Or.inl h)
      · exact Or.inr (Or.inr ⟨ha, hb⟩)
    · rcases h1 with h | h | ⟨_, hb, hc, _⟩
      · exact Or.inl h
      · exact Or.inr (Or.inl h)
      · exact absurd (hb ▸ lt_top_iff_ne_top.mpr hc) hlt

theorem Driven.movedOne {c : RaySetup} {r : Ray} (h : Driven c r) :
    MovedOne r (advance c r) := by
  obtain ⟨h0, h1⟩ := h
  unfold advance MovedOne
  by_cases hlt : r.tMax0 < r.tMax1
  · rw [if_pos hlt]
    left
    rcases h0 with h | h | ⟨_, h⟩
    · exact ⟨Or.inl (by simp [h]), rfl⟩
    · exact ⟨Or.inr (by simp [h, sub_eq_add_neg]), rfl⟩
    · rw [h] at hlt
      exact absurd hlt not_top_lt
  · rw [if_neg hlt]
    right
    rcases h1 with h | h | ⟨_, hb, hc, _⟩
    · exact ⟨rfl, Or.inl (by simp [h])⟩
    · exact ⟨rfl, Or.inr (by simp [h, sub_eq_add_neg])⟩
    · exact absurd (hb ▸ lt_top_iff_ne_top.mpr hc) hlt

theorem Driven.iterate {c : RaySetup} {r : Ray} (h : Driven c r) (n : ℕ) :
    Driven c ((advance c)^[n] r) := by
  induction n with
  | zero => exact h
  | succ n ih =>
    rw [Function.iterate_succ_apply']
    exact ih.next

theorem exit_dist_pos (step : ℤ) {size : ℕ} {cur : ℤ} (h0 : 0 ≤ cur) (h1 : cur < (size : ℤ)) :
    1 ≤ exit_dist step size cur ∧ exit_dist step size cur ≤ (size : ℤ) := by
  unfold exit_dist
  split_ifs <;> constructor <;> omega

theorem budget_advance {map : OccupancyGrid} {c : RaySetup} {r : Ray} (h : Driven c r) :
    budget map c (advance c r) = budget map c r - 1 := by
  obtain ⟨h0, h1⟩ := h
  unfold advance budget exit_dist
  by_cases hlt : r.tMax0 < r.tMax1
  · rw [if_pos hlt]
    rcases h0 with h | h | ⟨_, h⟩
    · simp only [h]; norm_num; ring
    · simp only [h]; norm_num; ring
    · rw [h] at hlt
      exact absurd hlt not_top_lt
  · rw [if_neg hlt]
    rcases h1 with h | h | ⟨_, hb, hc, _⟩
    · simp only [h]; norm_num; ring
    · simp only [h]; norm_num; ring
    · exact absurd (hb ▸ lt_top_iff_ne_top.mpr hc) hlt

theorem ray_loop_no_timeout (m : Libm) (s : Sim) (c : RaySetup) :
    ∀ (n : ℕ) (r : Ray), Driven c r → outside_map s.map r.current0 r.current1 = false →
      budget s.map c r ≤ (n : ℤ) → (ray_loop m s c n r).1 ≠ .error .timeout := by
  intro n
  induction n with
  | zero =>
    intro r _ hin hb
    obtain ⟨a0, a1, b0, b1⟩ := outside_map_eq_false hin
    have hx := (exit_dist_pos c.step0 a0 a1).1
    have hy := (exit_dist_pos c.step1 b0 b1).1
    unfold budget at hb
    simp only [Nat.cast_zero] at hb
    omega
  | succ n ih =>
    intro r hd hin hb
    have hb1 : budget s.map c (advance c r) ≤ (n : ℤ) := by
      rw [budget_advance hd]
      push_cast at hb
      omega
    rw [ray_loop_succ]
    split
    · simp
    · rename_i hout
      have hin1 : outside_map s.map (advance c r).current0 (advance c r).current1 = false := by
        simpa using hout
      split
      · simp
      · split
        · simp
        · split
          · split
            · exact ih _ hd.next hin1 hb1
            · simp
          · exact ih _ hd.next hin1 hb1

theorem ray_loop_no_timeout_start (m : Libm) (s : Sim) (c : RaySetup) (r : Ray)
    (hd : Driven c r) (hw : 0 < s.map.width) (n : ℕ) (hn : s.map.width + s.map.height ≤ n) :
    (ray_loop m s c n r).1 ≠ .error .timeout := by
  obtain ⟨k, rfl⟩ : ∃ k, n = k + 1 := ⟨n - 1, by omega⟩
  by_cases hout : outside_map s.map (advance c r).current0 (advance c r).current1 = true
  · rw [ray_loop_succ, if_pos hout]
    simp
  · have hin1 : outside_map s.map (advance c r).current0 (advance c r).current1 = false := by
      simpa using hout
    obtain ⟨a0, a1, b0, b1⟩ := outside_map_eq_false hin1
    have hx := (exit_dist_pos c.step0 a0 a1).2
    have hy := (exit_dist_pos c.step1 b0 b1).2
    have hb1 : budget s.map c (advance c r) ≤ (k : ℤ) := by
      unfold budget
      have : ((s.map.width + s.map.height : ℕ) : ℤ) ≤ ((k + 1 : ℕ) : ℤ) := by exact_mod_cast hn
      push_cast at this
      omega
    have key := ray_loop_no_timeout m s c k (advance c r) hd.next hin1 hb1
    rw [ray_loop_succ, if_neg hout]
    split
    · simp
    · split
      · simp
      · split
        · split
          · exact key
          · simp
        · exact key

theorem step_of_eq_zero {dir : ℚ} (h : dir = 0) : step_of dir = 0 := by
  simp [step_of, h]

theorem step_of_cases (dir : ℚ) (h : dir ≠ 0) : step_of dir = 1 ∨ step_of dir = -1 := by
  unfold step_of
  rcases lt_or_gt_of_ne h with h1 | h1
  · left
    rw [if_neg (not_lt.mpr h1.le), if_pos h1]
  · right
    rw [if_pos h1]

theorem tMax_of_zero (resolution border origin : ℚ) :
    tMax_of resolution border origin 0 = ⊤ := by
  simp [tMax_of, step_of]

theorem tMax_of_ne_top (resolution border origin : ℚ) {dir : ℚ} (h : dir ≠ 0) :
    tMax_of resolution border origin dir ≠ ⊤ := by
  have h1 : step_of dir ≠ 0 := by
    rcases step_of_cases dir h with h2 | h2 <;> rw [h2] <;> decide
  unfold tMax_of
  rw [if_pos h1]
  exact WithTop.coe_ne_top

theorem tDelta_of_ne_top (resolution : ℚ) {dir : ℚ} (h : dir ≠ 0) :
    tDelta_of resolution dir ≠ ⊤ := by
  have h1 : step_of dir ≠ 0 := by
    rcases step_of_cases dir h with h2 | h2 <;> rw [h2] <;> decide
  unfold tDelta_of
  rw [if_pos h1]
  exact WithTop.coe_ne_top

theorem driven_init (map : OccupancyGrid) (x y dir0 dir1 : ℚ) (h : dir0 ≠ 0 ∨ dir1 ≠ 0) :
    Driven (ray_setup map x y dir0 dir1) (ray_init map x y dir0 dir1) := by
  unfold Driven ray_setup ray_init
  dsimp only
  refine ⟨?_, ?_⟩
  · by_cases h0 : dir0 = 0
    · right; right
      subst h0
      exact ⟨step_of_eq_zero rfl, tMax_of_zero _ _ _⟩
    · rcases step_of_cases dir0 h0 with h1 | h1
      · exact Or.inl h1
      · exact Or.inr (Or.inl h1)
  · by_cases h1 : dir1 = 0
    · right; right
      have h0 : dir0 ≠ 0 := by
        rcases h with h | h
        · exact h
        · exact absurd h1 h
      subst h1
      exact ⟨step_of_eq_zero rfl, tMax_of_zero _ _ _, tMax_of_ne_top _ _ _ h0,
        tDelta_of_ne_top _ h0⟩
    · rcases step_of_cases dir1 h1 with h2 | h2
      · exact Or.inl h2
      · exact Or.inr (Or.inl h2)

theorem except_cases (e : Except Abort ℚ) :
    (∃ q, e = .ok q) ∨ e = .error .fault ∨ e = .error .timeout := by
  rcases e with a | q
  · cases a
    · exact Or.inr (Or.inl rfl)
    · exact Or.inr (Or.inr rfl)
  · exact Or.inl ⟨q, rfl⟩

theorem find_map_range_returns (m : Libm) (s : Sim) (x y theta : ℚ)
    (hw : 0 < s.map.width)
    (hlen : s.map.data.length = s.map.width * s.map.height)
    (hdir : m.cos theta ≠ 0 ∨ m.sin theta ≠ 0)
    (fuel : ℕ) (hfuel : s.map.width + s.map.height ≤ fuel) :
    ∃ q, find_map_range m s fuel x y theta = .ok q := by
  have h1 := ray_loop_no_timeout_start m s _ _
    (driven_init s.map x y (m.cos theta) (m.sin theta) hdir) hw fuel hfuel
  have h2 := ray_loop_no_fault m s (ray_setup s.map x y (m.cos theta) (m.sin theta)) hlen fuel
    (ray_init s.map x y (m.cos theta) (m.sin theta))
  unfold find_map_range find_map_range_calls
  rcases except_cases (ray_loop m s (ray_setup s.map x y (m.cos theta) (m.sin theta)) fuel
    (ray_init s.map x y (m.cos theta) (m.sin theta))).1 with h | h | h
  · exact h
  · exact absurd h h2
  · exact absurd h h1

/-! ## The beam loop of `update_scan` -/

theorem scan_loop_done (m : Libm) (s : Sim) (fuel : ℕ) (x y theta amin ainc : ℚ)
    (i : ℕ) (ranges : List ℚ) (h : ¬ i ≤ s.l_beams) :
    scan_loop m s fuel x y theta amin ainc i ranges = .ok ranges := by
  rw [scan_loop, if_neg h]

theorem scan_loop_ok (m : Libm) (s : Sim) (fuel : ℕ) (x y theta amin ainc : ℚ)
    (i : ℕ) (ranges : List ℚ) (h : i ≤ s.l_beams) (q : ℚ)
    (hq : find_map_range m s fuel x y (theta - amin + (i : ℚ) * ainc) = .ok q) :
    scan_loop m s fuel x y theta amin ainc i ranges =
      scan_loop m s fuel x y theta amin ainc (i + 1) (ranges ++ [q]) := by
  rw [scan_loop, if_pos h]
  simp only [hq]

theorem scan_loop_error (m : Libm) (s : Sim) (fuel : ℕ) (x y theta amin ainc : ℚ)
    (i : ℕ) (ranges : List ℚ) (h : i ≤ s.l_beams) (e : Abort)
    (hq : find_map_range m s fuel x y (theta - amin + (i : ℚ) * ainc) = .error e) :
    scan_loop m s fuel x y theta amin ainc i ranges = .error e := by
  rw [scan_loop, if_pos h]
  simp only [hq]

/-- Whatever the loop returns extends the ranges it was entered with by one
entry per remaining beam, each the value `find_map_range` returned for it. -/
theorem scan_loop_spec (m : Libm) (s : Sim) (fuel : ℕ) (x y theta amin ainc : ℚ) :
    ∀ (k i : ℕ) (ranges out : List ℚ), s.l_beams + 1 - i = k →
      scan_loop m s fuel x y theta amin ainc i ranges = .ok out →
      ∃ tail, out = ranges ++ tail ∧ tail.length = k ∧
        ∀ j, j < k → ∃ q, tail.get? j = some q ∧
          find_map_range m s fuel x y (theta - amin + ((i + j : ℕ) : ℚ) * ainc) = .ok q := by
  intro k
  induction k with
  | zero =>
    intro i ranges out hk h
    rw [scan_loop_done _ _ _ _ _ _ _ _ _ _ (by omega)] at h
    refine ⟨[], ?_, rfl, ?_⟩
    · simpa using (Except.ok.inj h).symm
    · intro j hj
      omega
  | succ k ih =>
    intro i ranges out hk h
    have hi : i ≤ s.l_beams := by omega
    rcases hres : find_map_range m s fuel x y (theta - amin + (i : ℚ) * ainc) with e | q
    · rw [scan_loop_error _ _ _ _ _ _ _ _ _ _ hi e hres] at h
      cases h
    · rw [scan_loop_ok _ _ _ _ _ _ _ _ _ _ hi q hres] at h
      obtain ⟨tail, h1, h2, h3⟩ := ih (i + 1) (ranges ++ [q]) out (by omega) h
      refine ⟨q :: tail, ?_, ?_, ?_⟩
      · rw [h1, List.append_assoc]
        rfl
      · simp [h2]
      · intro j hj
        cases j with
        | zero => exact ⟨q, rfl, by simpa using hres⟩
        | succ j =>
          obtain ⟨q1, h4, h5⟩ := h3 j (by omega)
          refine ⟨q1, by simpa using h4, ?_⟩
          have : i + 1 + j = i + (j + 1) := by omega
          rw [this] at h5
          exact h5

/-- The loop returns when `find_map_range` returns for every remaining beam. -/
theorem scan_loop_total (m : Libm) (s : Sim) (fuel : ℕ) (x y theta amin ainc : ℚ) :
    ∀ (k i : ℕ) (ranges : List ℚ), s.l_beams + 1 - i = k →
      (∀ j, j ≤ s.l_beams →
        ∃ q, find_map_range m s fuel x y (theta - amin + (j : ℚ) * ainc) = .ok q) →
      ∃ out, scan_loop m s fuel x y theta amin ainc i ranges = .ok out := by
  intro k
  induction k with
  | zero =>
    intro i ranges hk _
    exact ⟨ranges, scan_loop_done _ _ _ _ _ _ _ _ _ _ (by omega)⟩
  | succ k ih =>
    intro i ranges hk hall
    have hi : i ≤ s.l_beams := by omega
    obtain ⟨q, hq⟩ := hall i hi
    rw [scan_loop_ok _ _ _ _ _ _ _ _ _ _ hi q hq]
    exact ih (i + 1) (ranges ++ [q]) (by omega) hall

theorem update_scan_ok {m : Libm} {s : Sim} {fuel : ℕ} {now x y theta : ℚ} {scan : LaserScan}
    (h : update_scan m s fuel now x y theta = .ok scan) :
    scan_loop m s fuel x y theta (-s.l_fov / 2) (s.l_fov / (s.l_beams : ℚ)) 0 [] =
        .ok scan.ranges ∧
      scan.frame_id = s.l_frame ∧ scan.stamp = now ∧
      scan.angle_min = -s.l_fov / 2 ∧ scan.angle_max = s.l_fov / 2 ∧
      scan.angle_increment = s.l_fov / (s.l_beams : ℚ) ∧
      scan.time_increment = (1 / s.l_frequency) / (s.l_beams : ℚ) ∧
      scan.scan_time = 1 / s.l_frequency ∧
      scan.range_min = s.l_min_range ∧ scan.range_max = s.l_max_range + 1 / 1000 := by
  unfold update_scan at h
  dsimp only at h
  split at h
  · rename_i ranges hr
    have h1 := Except.ok.inj h
    subst h1
    exact ⟨hr, rfl, rfl, rfl, rfl, rfl, rfl, rfl, rfl, rfl⟩
  · cases h

theorem ratLibm_dir (t : ℚ) : ratLibm.cos t ≠ 0 ∨ ratLibm.sin t ≠ 0 := by
  have hpos : (0 : ℚ) < 1 + t ^ 2 := by positivity
  by_cases ht : t = 0
  · left
    subst ht
    norm_num [ratLibm]
  · right
    simp only [ratLibm]
    exact div_ne_zero (mul_ne_zero two_ne_zero ht) hpos.ne'

theorem sim_5_0_length :
    sim_5_0.map.data.length = sim_5_0.map.width * sim_5_0.map.height := by
  simp [sim_5_0, grid_5_0, unit_grid]

theorem sim_free_length :
    sim_free.map.data.length = sim_free.map.width * sim_free.map.height := by
  simp [sim_free, unit_grid]

/-! ## Independence from the update frequency -/

theorem ray_loop_frequency (m : Libm) (s : Sim) (f : ℚ) (c : RaySetup) :
    ∀ (n : ℕ) (r : Ray),
      ray_loop m { s with l_frequency := f } c n r = ray_loop m s c n r := by
  intro n
  induction n with
  | zero => intro r; rfl
  | succ n ih =>
    intro r
    rw [ray_loop_succ, ray_loop_succ, ih]

theorem find_map_range_frequency (m : Libm) (s : Sim) (f : ℚ) (fuel : ℕ) (x y theta : ℚ) :
    find_map_range m { s with l_frequency := f } fuel x y theta =
      find_map_range m s fuel x y theta := by
  unfold find_map_range find_map_range_calls
  dsimp only
  rw [ray_loop_frequency]

theorem scan_loop_frequency (m : Libm) (s : Sim) (f : ℚ) (fuel : ℕ)
    (x y theta amin ainc : ℚ) :
    ∀ (k i : ℕ) (ranges : List ℚ), s.l_beams + 1 - i = k →
      scan_loop m { s with l_frequency := f } fuel x y theta amin ainc i ranges =
        scan_loop m s fuel x y theta amin ainc i ranges := by
  intro k
  induction k with
  | zero =>
    intro i ranges hk
    have h1 : ¬ i ≤ s.l_beams := by omega
    rw [scan_loop_done _ _ _ _ _ _ _ _ _ _ h1]
    exact scan_loop_done _ _ _ _ _ _ _ _ _ _ h1
  | succ k ih =>
    intro i ranges hk
    have hi : i ≤ s.l_beams := by omega
    rcases hres : find_map_range m s fuel x y (theta - amin + (i : ℚ) * ainc) with e | q
    · rw [scan_loop_error _ _ _ _ _ _ _ _ _ _ hi e hres]
      exact scan_loop_error m { s with l_frequency := f } fuel x y theta amin ainc i ranges hi e
        (by rw [find_map_range_frequency]; exact hres)
    · rw [scan_loop_ok _ _ _ _ _ _ _ _ _ _ hi q hres, ← ih (i + 1) (ranges ++ [q]) (by omega)]
      exact scan_loop_ok m { s with l_frequency := f } fuel x y theta amin ainc i ranges hi q
        (by rw [find_map_range_frequency]; exact hres)

theorem update_scan_returns (m : Libm) (s : Sim) (now x y theta : ℚ)
    (hw : 0 < s.map.width)
    (hlen : s.map.data.length = s.map.width * s.map.height)
    (hdir : ∀ t, m.cos t ≠ 0 ∨ m.sin t ≠ 0)
    (fuel : ℕ) (hfuel : s.map.width + s.map.height ≤ fuel) :
    ∃ scan, update_scan m s fuel now x y theta = .ok scan := by
  obtain ⟨out, hout⟩ := scan_loop_total m s fuel x y theta (-s.l_fov / 2)
    (s.l_fov / (s.l_beams : ℚ)) (s.l_beams + 1) 0 [] rfl
    (fun j _ => find_map_range_returns m s x y _ hw hlen (hdir _) fuel hfuel)
  unfold update_scan
  dsimp only
  rw [hout]
  exact ⟨_, rfl⟩

/-! ## One iteration, and invariants of the loop -/

theorem ray_loop_examine (m : Libm) (s : Sim) (c : RaySetup) (fuel : ℕ) (r : Ray) :
    (ray_loop m s c (fuel + 1) r).1 =
      (examine m s c (advance c r)).getD (ray_loop m s c fuel (advance c r)).1 := by
  rw [ray_loop_succ]
  unfold examine
  dsimp only
  split
  · rfl
  · split
    · rfl
    · split
      · rfl
      · split
        · split <;> rfl
        · rfl

theorem disp_advance {c : RaySetup} {r : Ray} (h : Driven c r) :
    disp c (advance c r) = disp c r + 1 := by
  obtain ⟨h0, h1⟩ := h
  unfold advance disp
  by_cases hlt : r.tMax0 < r.tMax1
  · rw [if_pos hlt]
    rcases h0 with h | h | ⟨_, h⟩
    · simp only [h]; ring
    · simp only [h]; ring
    · rw [h] at hlt
      exact absurd hlt not_top_lt
  · rw [if_neg hlt]
    rcases h1 with h | h | ⟨_, hb, hc, _⟩
    · simp only [h]; ring
    · simp only [h]; ring
    · exact absurd (hb ▸ lt_top_iff_ne_top.mpr hc) hlt

/-- Every cell the loop examines, and every cell whose range it returns, is
reached by `advance` from a state that satisfies an invariant of `advance`. -/
theorem ray_loop_inv (m : Libm) (s : Sim) (c : RaySetup) (I : Ray → Prop)
    (hI : ∀ r, I r → I (advance c r)) :
    ∀ (n : ℕ) (r : Ray), I r →
      (∀ p ∈ (ray_loop m s c n r).2, ∃ r0, I r0 ∧
        outside_map s.map (advance c r0).current0 (advance c r0).current1 = false ∧
        p = ((advance c r0).current0, (advance c r0).current1)) ∧
      (∀ q, (ray_loop m s c n r).1 = .ok q → q = s.l_max_range ∨
        ∃ r0 occ, I r0 ∧
          outside_map s.map (advance c r0).current0 (advance c r0).current1 = false ∧
          get_map_occupancy s.map (advance c r0).current0 (advance c r0).current1 = some occ ∧
          60 ≤ occ ∧ q = current_range m s.map c (advance c r0)) := by
  intro n
  induction n with
  | zero =>
    intro r _
    constructor
    · intro p hp
      simp [ray_loop_zero] at hp
    · intro q hq
      simp [ray_loop_zero] at hq
  | succ n ih =>
    intro r hr
    obtain ⟨ih1, ih2⟩ := ih (advance c r) (hI r hr)
    rw [ray_loop_succ]
    split
    · constructor
      · intro p hp
        simp at hp
      · intro q hq
        left
        simpa using hq.symm
    · rename_i hout
      have hin : outside_map s.map (advance c r).current0 (advance c r).current1 = false := by
        simpa using hout
      split
      · constructor
        · intro p hp
          simp at hp
        · intro q hq
          left
          simpa using hq.symm
      · split
        · constructor
          · intro p hp
            simp only [List.mem_singleton] at hp
            exact ⟨r, hr, hin, hp⟩
          · intro q hq
            simp at hq
        · rename_i occ hocc
          split
          · rename_i h60
            split
            · constructor
              · intro p hp
                rcases List.mem_cons.mp hp with h | h
                · exact ⟨r, hr, hin, h⟩
                · exact ih1 p h
              · exact ih2
            · constructor
              · intro p hp
                simp only [List.mem_singleton] at hp
                exact ⟨r, hr, hin, hp⟩
              · intro q hq
                right
                exact ⟨r, occ, hr, hin, hocc, h60, by simpa using hq.symm⟩
          · constructor
            · intro p hp
              rcases List.mem_cons.mp hp with h | h
              · exact ⟨r, hr, hin, h⟩
              · exact ih1 p h
            · exact ih2

/-! ## Floating-point rounding -/

theorem log_two_eq {r : ℚ} {e : ℤ} (hr : 0 < r) (h1 : (2 : ℚ) ^ e ≤ r) (h2 : r < (2 : ℚ) ^ (e + 1)) :
    Int.log 2 r = e := by
  have a : e ≤ Int.log 2 r := (Int.zpow_le_iff_le_log (by norm_num) hr).mp (by exact_mod_cast h1)
  have b : Int.log 2 r < e + 1 := (Int.lt_zpow_iff_log_lt (by norm_num) hr).mp (by exact_mod_cast h2)
  omega

theorem round_even_le (x : ℚ) : (⌊x⌋ : ℤ) ≤ round_even x ∧ round_even x ≤ ⌊x⌋ + 1 := by
  unfold round_even
  split_ifs <;> constructor <;> omega

theorem round_even_intCast (z : ℤ) : round_even (z : ℚ) = z := by
  unfold round_even
  rw [Int.floor_intCast]
  norm_num

theorem round_even_mono_int {x : ℚ} {a b : ℤ} (ha : (a : ℚ) ≤ x) (hb : x ≤ (b : ℚ)) :
    a ≤ round_even x ∧ round_even x ≤ b := by
  have h1 : a ≤ ⌊x⌋ := Int.le_floor.mpr ha
  refine ⟨h1.trans (round_even_le x).1, ?_⟩
  rcases eq_or_lt_of_le hb with h | h
  · rw [h, round_even_intCast]
  · have : ⌊x⌋ < b := Int.floor_lt.mpr h
    have := (round_even_le x).2
    omega

theorem round_even_of_lt {x : ℚ} {f : ℤ} (h1 : (f : ℚ) ≤ x) (h2 : x < (f : ℚ) + 1 / 2) :
    round_even x = f := by
  have hf : ⌊x⌋ = f := Int.floor_eq_iff.mpr ⟨h1, by linarith⟩
  unfold round_even
  rw [hf, if_pos (by linarith)]

theorem round_even_of_gt {x : ℚ} {f : ℤ} (h1 : (f : ℚ) + 1 / 2 < x) (h2 : x < (f : ℚ) + 1) :
    round_even x = f + 1 := by
  have hf : ⌊x⌋ = f := Int.floor_eq_iff.mpr ⟨by linarith, h2⟩
  unfold round_even
  rw [hf, if_neg (by linarith), if_pos (by linarith)]

/-- The value of `fp_round` at a number of known binary exponent `e ≥ emin`
whose rounded significand `N` is known and does not overflow. -/
theorem fp_round_eval (p : ℕ) (emin emax : ℤ) {q : ℚ} {e N : ℤ} (h1 : (2 : ℚ) ^ e ≤ |q|)
    (h2 : |q| < (2 : ℚ) ^ (e + 1)) (he : emin ≤ e)
    (hN : round_even (q / (2 : ℚ) ^ (e - ((p : ℤ) - 1))) = N)
    (hmax : |(N : ℚ) * (2 : ℚ) ^ (e - ((p : ℤ) - 1))| < (2 : ℚ) ^ (emax + 1)) :
    fp_round p emin emax q = some ((N : ℚ) * (2 : ℚ) ^ (e - ((p : ℤ) - 1))) := by
  have hpos : 0 < |q| := lt_of_lt_of_le (by positivity) h1
  unfold fp_round
  rw [log_two_eq hpos h1 h2, max_eq_left he, hN, if_pos hmax]

theorem fp_round_exact (p : ℕ) (emin emax : ℤ) (m e : ℤ) (hm : |m| < 2 ^ p)
    (he : emin - ((p : ℤ) - 1) ≤ e)
    (hmax : |(m : ℚ) * (2 : ℚ) ^ e| < (2 : ℚ) ^ (emax + 1)) :
    fp_round p emin emax ((m : ℚ) * (2 : ℚ) ^ e) = some ((m : ℚ) * (2 : ℚ) ^ e) := by
  have h2pos : ∀ z : ℤ, (0 : ℚ) < (2 : ℚ) ^ z := fun z => by positivity
  have key : ∀ k : ℤ, k ≤ e →
      (round_even ((m : ℚ) * (2 : ℚ) ^ e / (2 : ℚ) ^ k) : ℚ) * (2 : ℚ) ^ k =
        (m : ℚ) * (2 : ℚ) ^ e := by
    intro k hk
    obtain ⟨n, hn⟩ : ∃ n : ℕ, e - k = (n : ℤ) := ⟨(e - k).toNat, (Int.toNat_of_nonneg (by omega)).symm⟩
    have hdiv : (m : ℚ) * (2 : ℚ) ^ e / (2 : ℚ) ^ k = ((m * 2 ^ n : ℤ) : ℚ) := by
      rw [mul_div_assoc, ← zpow_sub₀ (by norm_num : (2 : ℚ) ≠ 0), hn]
      push_cast
      rw [zpow_natCast]
    rw [hdiv, round_even_intCast, ← hdiv]
    field_simp
  by_cases hm0 : m = 0
  · subst hm0
    have hz : (0 : ℚ) < (2 : ℚ) ^ (emax + 1) := h2pos _
    simp [fp_round, round_even, hz]
  have hk : max (Int.log 2 |(m : ℚ) * (2 : ℚ) ^ e|) emin - ((p : ℤ) - 1) ≤ e := by
    have hq : (m : ℚ) * (2 : ℚ) ^ e ≠ 0 := mul_ne_zero (by exact_mod_cast hm0) (h2pos e).ne'
    have hlt : |(m : ℚ) * (2 : ℚ) ^ e| < (2 : ℚ) ^ (e + p) := by
      rw [abs_mul, abs_of_pos (h2pos e), zpow_add₀ (by norm_num : (2 : ℚ) ≠ 0),
        mul_comm ((2 : ℚ) ^ e)]
      have : |(m : ℚ)| < (2 : ℚ) ^ (p : ℤ) := by
        have : ((|m| : ℤ) : ℚ) < ((2 ^ p : ℤ) : ℚ) := by exact_mod_cast hm
        simpa using this
      exact mul_lt_mul_of_pos_right this (h2pos e)
    have hL : Int.log 2 |(m : ℚ) * (2 : ℚ) ^ e| < e + p :=
      (Int.lt_zpow_iff_log_lt (by norm_num) (abs_pos.mpr hq)).mp (by exact_mod_cast hlt)
    rcases le_total (Int.log 2 |(m : ℚ) * (2 : ℚ) ^ e|) emin with h | h
    · rw [max_eq_right h]; exact he
    · rw [max_eq_left h]; omega
  unfold fp_round
  rw [key _ hk, if_pos hmax]

theorem fp_round_repr {p : ℕ} {emin emax : ℤ} {q v : ℚ} (h : fp_round p emin emax q = some v) :
    ∃ (N k : ℤ), |N| ≤ 2 ^ p ∧ emin - ((p : ℤ) - 1) ≤ k ∧ v = (N : ℚ) * (2 : ℚ) ^ k ∧
      |v| < (2 : ℚ) ^ (emax + 1) := by
  have h2pos : ∀ z : ℤ, (0 : ℚ) < (2 : ℚ) ^ z := fun z => by positivity
  unfold fp_round at h
  split at h
  · rename_i hlt
    have hv := Option.some.inj h
    refine ⟨round_even (q / (2 : ℚ) ^ (max (Int.log 2 |q|) emin - ((p : ℤ) - 1))),
      max (Int.log 2 |q|) emin - ((p : ℤ) - 1), ?_, ?_, hv.symm, by rw [← hv]; exact hlt⟩
    · have hq : |q| < (2 : ℚ) ^ (Int.log 2 |q| + 1) := by
        exact_mod_cast Int.lt_zpow_succ_log_self (by norm_num : 1 < 2) |q|
      have hk : Int.log 2 |q| - ((p : ℤ) - 1) ≤ max (Int.log 2 |q|) emin - ((p : ℤ) - 1) := by
        have := le_max_left (Int.log 2 |q|) emin
        omega
      generalize max (Int.log 2 |q|) emin - ((p : ℤ) - 1) = k at hk
      generalize Int.log 2 |q| = L at hq hk
      have hx : |q / (2 : ℚ) ^ k| < (2 : ℚ) ^ (p : ℤ) := by
        rw [abs_div, abs_of_pos (h2pos _), div_lt_iff₀ (h2pos _),
          ← zpow_add₀ (by norm_num : (2 : ℚ) ≠ 0)]
        refine lt_of_lt_of_le hq ?_
        exact zpow_le_zpow_right₀ (by norm_num) (by omega)
      have hx1 := abs_lt.mp hx
      have hb := round_even_mono_int (x := q / (2 : ℚ) ^ k) (a := -(2 ^ p)) (b := 2 ^ p)
        (by push_cast; rw [← zpow_natCast]; exact hx1.1.le)
        (by push_cast; rw [← zpow_natCast]; exact hx1.2.le)
      exact abs_le.mpr hb
    · have := le_max_right (Int.log 2 |q|) emin
      omega
  · cases h

theorem to_double_of_float {q v : ℚ} (h : to_float q = some v) : to_double v = some v := by
  obtain ⟨N, k, hN, hk, hv, hmax⟩ := fp_round_repr h
  rw [hv] at hmax ⊢
  refine fp_round_exact 53 (-1022) 1023 N k (lt_of_le_of_lt hN (by norm_num)) (by omega) ?_
  refine lt_trans hmax ?_
  exact zpow_lt_zpow_right₀ (by norm_num) (by norm_num)

theorem to_float_intCast {z : ℤ} (h : |z| < 2 ^ 24) : to_float (z : ℚ) = some (z : ℚ) := by
  have hz : |(z : ℚ)| < 2 ^ 24 := by exact_mod_cast h
  have := fp_round_exact 24 (-126) 127 z 0 h (by norm_num)
    (by simp only [zpow_zero, mul_one]; exact lt_trans hz (by norm_num))
  simpa [to_float] using this

theorem to_double_intCast {z : ℤ} (h : |z| < 2 ^ 53) : to_double (z : ℚ) = some (z : ℚ) := by
  have hz : |(z : ℚ)| < 2 ^ 53 := by exact_mod_cast h
  have := fp_round_exact 53 (-1022) 1023 z 0 h (by norm_num)
    (by simp only [zpow_zero, mul_one]; exact lt_trans hz (by norm_num))
  simpa [to_double] using this

/-! ## The round trip of the coordinate transforms -/

theorem to_double_zero : to_double 0 = some 0 := by
  have := to_double_intCast (z := 0) (by norm_num)
  simpa using this

theorem to_float_five_res : to_float (5 * res_005) = some (1 / 4) := by
  have h := fp_round_eval 24 (-126) 127 (q := 5 * res_005) (e := -2) (N := 8388608)
    (by norm_num [res_005, abs_of_pos]) (by norm_num [res_005, abs_of_pos]) (by norm_num)
    (round_even_of_lt (by norm_num [res_005]) (by norm_num [res_005]))
    (by norm_num [abs_of_pos])
  rw [to_float, h]
  norm_num

theorem to_float_three_res : to_float (3 * res_005) = some (5033165 / 33554432) := by
  have h := fp_round_eval 24 (-126) 127 (q := 3 * res_005) (e := -3) (N := 10066329 + 1)
    (by norm_num [res_005, abs_of_pos]) (by norm_num [res_005, abs_of_pos]) (by norm_num)
    (round_even_of_gt (by norm_num [res_005]) (by norm_num [res_005]))
    (by norm_num [abs_of_pos])
  rw [to_float, h]
  norm_num

theorem floor_quarter_div_res :
    ∃ t, to_double (1 / 4 / res_005) = some t ∧ ⌊t⌋ = 4 := by
  have hb := round_even_mono_int
    (x := 1 / 4 / res_005 / (2 : ℚ) ^ ((2 : ℤ) - (((53 : ℕ) : ℤ) - 1)))
    (a := 4 * 2 ^ 50) (b := 5 * 2 ^ 50 - 1)
    (by norm_num [res_005]) (by norm_num [res_005])
  have h1 : ((4 * 2 ^ 50 : ℤ) : ℚ) ≤
      (round_even (1 / 4 / res_005 / (2 : ℚ) ^ ((2 : ℤ) - (((53 : ℕ) : ℤ) - 1))) : ℚ) := by
    exact_mod_cast hb.1
  have h2 : (round_even (1 / 4 / res_005 / (2 : ℚ) ^ ((2 : ℤ) - (((53 : ℕ) : ℤ) - 1))) : ℚ) ≤
      ((5 * 2 ^ 50 - 1 : ℤ) : ℚ) := by
    exact_mod_cast hb.2
  have hp : (2 : ℚ) ^ ((2 : ℤ) - (((53 : ℕ) : ℤ) - 1)) = 1 / 2 ^ 50 := by norm_num
  have hv : (4 : ℚ) ≤
      (round_even (1 / 4 / res_005 / (2 : ℚ) ^ ((2 : ℤ) - (((53 : ℕ) : ℤ) - 1))) : ℚ) *
        (2 : ℚ) ^ ((2 : ℤ) - (((53 : ℕ) : ℤ) - 1)) ∧
      (round_even (1 / 4 / res_005 / (2 : ℚ) ^ ((2 : ℤ) - (((53 : ℕ) : ℤ) - 1))) : ℚ) *
        (2 : ℚ) ^ ((2 : ℤ) - (((53 : ℕ) : ℤ) - 1)) < 5 := by
    rw [hp]
    norm_num at h1 h2 ⊢
    constructor <;> linarith
  refine ⟨_, fp_round_eval 53 (-1022) 1023 (q := 1 / 4 / res_005) (e := 2)
    (by norm_num [res_005, abs_of_pos]) (by norm_num [res_005, abs_of_pos]) (by norm_num) rfl ?_,
    ?_⟩
  · rw [abs_of_nonneg (by linarith [hv.1])]
    linarith [hv.2]
  · have e4 : ((4 : ℤ) : ℚ) = 4 := by norm_num
    have e5 : (4 : ℚ) + 1 = 5 := by norm_num
    rw [Int.floor_eq_iff, e4, e5]
    exact hv

theorem int_cast_of_lt {z : ℤ} (h : |z| < 2 ^ 24) : int_cast z = some z := by
  have h1 := abs_lt.mp h
  unfold int_cast
  rw [if_pos]
  constructor <;> omega

/-- Lines 194-195 on both axes when neither rounds. -/
theorem map2world_fl_of_exact {map : OccupancyGrid} {cx cy : ℤ}
    (hx : corner_exact map.resolution map.origin_x cx)
    (hy : corner_exact map.resolution map.origin_y cy) :
    get_map2world_coordinates_fl map cx cy = some (get_map2world_coordinates map cx cy) := by
  obtain ⟨hx1, hx2, hx3⟩ := hx
  obtain ⟨hy1, hy2, hy3⟩ := hy
  simp only [get_map2world_coordinates_fl, get_map2world_coordinates, to_float_intCast hx1,
    to_float_intCast hy1, hx2, hy2, hx3, hy3, Option.bind_eq_bind, Option.some_bind,
    Option.pure_def]

/-- Lines 186-187 on one axis at the exact corner of index `c`. -/
theorem index_of_corner {resolution origin : ℚ} {c : ℤ} (hres : 0 < resolution)
    (h : corner_exact resolution origin c) :
    index_exact resolution origin ((c : ℚ) * resolution + origin) ∧
      ⌊((c : ℚ) * resolution + origin - origin) / resolution⌋ = c := by
  obtain ⟨h1, h2, _⟩ := h
  have h53 : |c| < 2 ^ 53 := lt_trans h1 (by norm_num)
  have hq : ((c : ℚ) * resolution + origin - origin) / resolution = (c : ℚ) := by
    rw [add_sub_cancel_right, mul_div_assoc, div_self hres.ne', mul_one]
  refine ⟨⟨?_, ?_⟩, by rw [hq, Int.floor_intCast]⟩
  · rw [add_sub_cancel_right]
    exact to_double_of_float h2
  · rw [hq, to_double_intCast h53]
    rfl

/-- Lines 186-187 on both axes when the index is computed without rounding error. -/
theorem world2map_fl_of_exact (map : OccupancyGrid) (wx wy : ℚ)
    (hix : index_exact map.resolution map.origin_x wx)
    (hiy : index_exact map.resolution map.origin_y wy)
    (hbx : |⌊(wx - map.origin_x) / map.resolution⌋| < 2 ^ 24)
    (hby : |⌊(wy - map.origin_y) / map.resolution⌋| < 2 ^ 24) :
    get_world2map_coordinates_fl map wx wy =
      some (⌊(wx - map.origin_x) / map.resolution⌋, ⌊(wy - map.origin_y) / map.resolution⌋) := by
  obtain ⟨hx1, hx2⟩ := hix
  obtain ⟨hy1, hy2⟩ := hiy
  obtain ⟨tx, htx, hfx⟩ : ∃ t, to_double ((wx - map.origin_x) / map.resolution) = some t ∧
      ⌊t⌋ = ⌊(wx - map.origin_x) / map.resolution⌋ := by
    rcases hto : to_double ((wx - map.origin_x) / map.resolution) with _ | t
    · rw [hto] at hx2
      cases hx2
    · rw [hto] at hx2
      exact ⟨t, rfl, Option.some.inj hx2⟩
  obtain ⟨ty, hty, hfy⟩ : ∃ t, to_double ((wy - map.origin_y) / map.resolution) = some t ∧
      ⌊t⌋ = ⌊(wy - map.origin_y) / map.resolution⌋ := by
    rcases hto : to_double ((wy - map.origin_y) / map.resolution) with _ | t
    · rw [hto] at hy2
      cases hy2
    · rw [hto] at hy2
      exact ⟨t, rfl, Option.some.inj hy2⟩
  simp only [get_world2map_coordinates_fl, hx1, hy1, htx, hty, hfx, hfy, int_cast_of_lt hbx,
    int_cast_of_lt hby, Option.bind_eq_bind, Option.some_bind, Option.pure_def]

/-! ## The claims -/

/-- C1: in a grid all of whose cells are free (value below 60), a ray whose
origin lies in a cell of the grid returns exactly `l_max_range`, for every
heading, as soon as the loop is given `width + height` iterations. -/
theorem all_free_returns_max_range (m : Libm) (s : Sim) (x y theta : ℚ)
    (_hres : 0 < s.map.resolution)
    (hlen : s.map.data.length = s.map.width * s.map.height)
    (hfree : ∀ v ∈ s.map.data, v < 60)
    (hstart : outside_map s.map (get_world2map_coordinates s.map x y).1
      (get_world2map_coordinates s.map x y).2 = false)
    (hdir : m.cos theta ≠ 0 ∨ m.sin theta ≠ 0)
    (fuel : ℕ) (hfuel : s.map.width + s.map.height ≤ fuel) :
    find_map_range m s fuel x y theta = .ok s.l_max_range := by
  have hw : 0 < s.map.width := by
    obtain ⟨h1, h2, _, _⟩ := outside_map_eq_false hstart
    have : (0 : ℤ) < (s.map.width : ℤ) := lt_of_le_of_lt h1 h2
    exact_mod_cast this
  obtain ⟨q, hq⟩ := find_map_range_returns m s x y theta hw hlen hdir fuel hfuel
  have hq1 : q = s.l_max_range :=
    ray_loop_free m s _ hfree fuel _ q (by simpa [find_map_range, find_map_range_calls] using hq)
  rw [hq, hq1]

/-- Witness of C1 on the all-free 3 by 3 grid, from the point (1/2, 1/2) at heading 0. -/
theorem all_free_returns_max_range_witness :
    find_map_range ratLibm sim_free 6 (1 / 2) (1 / 2) 0 = .ok 8 :=
  all_free_returns_max_range ratLibm sim_free (1 / 2) (1 / 2) 0
    (by norm_num [sim_free, unit_grid]) sim_free_length
    (by
      intro v hv
      have := List.eq_of_mem_replicate (show v ∈ List.replicate 9 (0 : ℤ) from hv)
      omega)
    (by norm_num [sim_free, unit_grid, get_world2map_coordinates, outside_map])
    (ratLibm_dir 0) 6 (by simp [sim_free, unit_grid])

/-- C2, evaluated on the spec's example: 10 by 10 grid of resolution 1 whose
only occupied cell is (5, 0), ray from (1/2, 1/2) at heading 0 with
`l_min_range = 1/10` and `l_max_range = 8`.  The occupied cell is 5 cells
further along +x, yet the function returns `l_max_range`, not 5: the first
iteration steps to cell (-1, 0), outside the map. -/
theorem heading_zero_misses_obstacle (m : Libm) (hcos : m.cos 0 = 1) (hsin : m.sin 0 = 0)
    (fuel : ℕ) :
    get_map_occupancy sim_5_0.map 5 0 = some 100 ∧
      (1 / 10 : ℚ) ≤ 5 * sim_5_0.map.resolution ∧ 5 * sim_5_0.map.resolution ≤ 8 ∧
      (advance (ray_setup sim_5_0.map (1 / 2) (1 / 2) (m.cos 0) (m.sin 0))
        (ray_init sim_5_0.map (1 / 2) (1 / 2) (m.cos 0) (m.sin 0))).current0 = -1 ∧
      find_map_range m sim_5_0 (fuel + 1) (1 / 2) (1 / 2) 0 = .ok 8 := by
  have hst : start_cell sim_5_0.map (1 / 2) (1 / 2) 1 0 = (0, 0) := by
    norm_num [start_cell, get_world2map_coordinates, sim_5_0, grid_5_0, unit_grid]
  have hi : ray_init sim_5_0.map (1 / 2) (1 / 2) 1 0 = ⟨0, 0, ((-1 : ℚ) : WithTop ℚ), ⊤⟩ := by
    rw [ray_init, hst]
    norm_num [get_map2world_coordinates, tMax_of, step_of, sim_5_0, grid_5_0, unit_grid]
  have hs : ray_setup sim_5_0.map (1 / 2) (1 / 2) 1 0 =
      ⟨0, 0, -1, 0, ((1 : ℚ) : WithTop ℚ), ⊤⟩ := by
    rw [ray_setup, hst]
    norm_num [tDelta_of, step_of, sim_5_0, grid_5_0, unit_grid]
  have ha : advance ⟨0, 0, -1, 0, ((1 : ℚ) : WithTop ℚ), ⊤⟩
      ⟨0, 0, ((-1 : ℚ) : WithTop ℚ), ⊤⟩ = ⟨-1, 0, ((-1 : ℚ) : WithTop ℚ) + ((1 : ℚ) : WithTop ℚ), ⊤⟩ := by
    rw [advance, if_pos (WithTop.coe_lt_top _)]
    simp
  refine ⟨?_, ?_, ?_, ?_, ?_⟩
  · simp [get_map_occupancy, cell_index, sim_5_0, grid_5_0, unit_grid]
  · norm_num [sim_5_0, grid_5_0, unit_grid]
  · norm_num [sim_5_0, grid_5_0, unit_grid]
  · rw [hcos, hsin, hi, hs, ha]
  · rw [find_map_range, find_map_range_calls]
    simp only [hcos, hsin]
    rw [hi, hs, ray_loop_succ, ha]
    simp [outside_map, sim_5_0]

/-- Witness of the evaluation for C2, with the rational math library. -/
theorem heading_zero_misses_obstacle_witness :
    find_map_range ratLibm sim_5_0 20 (1 / 2) (1 / 2) 0 = .ok 8 :=
  (heading_zero_misses_obstacle ratLibm (by norm_num [ratLibm]) (by norm_num [ratLibm]) 19).2.2.2.2

/-- C3: `update_scan` returns a scan whose `ranges` has exactly `l_beams + 1`
entries, and entry `i` (for `i = 0..l_beams`) is the value of
`find_map_range x y (theta - angle_min + i*angle_increment)`, in beam order.
The hypotheses make every beam return: a well-formed map, a beam count that is
positive and does not wrap the counter, directions that are not the zero
vector, and `width + height` iterations of fuel for each beam. -/
theorem update_scan_ranges (m : Libm) (s : Sim) (now x y theta : ℚ)
    (_hres : 0 < s.map.resolution) (hw : 0 < s.map.width)
    (hlen : s.map.data.length = s.map.width * s.map.height)
    (_hbeams : 0 < s.l_beams) (_hwrap : s.l_beams + 1 < 2 ^ 32)
    (hdir : ∀ t, m.cos t ≠ 0 ∨ m.sin t ≠ 0)
    (fuel : ℕ) (hfuel : s.map.width + s.map.height ≤ fuel) :
    ∃ scan, update_scan m s fuel now x y theta = .ok scan ∧
      scan.ranges.length = s.l_beams + 1 ∧
      ∀ i, i ≤ s.l_beams → ∃ q, scan.ranges.get? i = some q ∧
        find_map_range m s fuel x y
          (theta - scan.angle_min + (i : ℚ) * scan.angle_increment) = .ok q := by
  obtain ⟨out, hout⟩ := scan_loop_total m s fuel x y theta (-s.l_fov / 2)
    (s.l_fov / (s.l_beams : ℚ)) (s.l_beams + 1) 0 [] rfl
    (fun j _ => find_map_range_returns m s x y _ hw hlen (hdir _) fuel hfuel)
  obtain ⟨tail, h1, h2, h3⟩ := scan_loop_spec m s fuel x y theta (-s.l_fov / 2)
    (s.l_fov / (s.l_beams : ℚ)) (s.l_beams + 1) 0 [] out rfl hout
  rw [List.nil_append] at h1
  subst h1
  have hscan : update_scan m s fuel now x y theta = .ok
      { frame_id := s.l_frame, stamp := now, angle_min := -s.l_fov / 2,
        angle_max := s.l_fov / 2, angle_increment := s.l_fov / (s.l_beams : ℚ),
        time_increment := 1 / s.l_frequency / (s.l_beams : ℚ),
        scan_time := 1 / s.l_frequency, range_min := s.l_min_range,
        range_max := s.l_max_range + 1 / 1000, ranges := out } := by
    simp only [update_scan, hout]
  refine ⟨_, hscan, h2, ?_⟩
  intro i hi
  obtain ⟨q, h4, h5⟩ := h3 i (by omega)
  rw [Nat.zero_add] at h5
  exact ⟨q, h4, h5⟩

/-- Witness of C3 on the 10 by 10 example grid with 4 beams. -/
theorem update_scan_ranges_witness :
    ∃ scan, update_scan ratLibm sim_5_0 20 0 (1 / 2) (1 / 2) 0 = .ok scan ∧
      scan.ranges.length = sim_5_0.l_beams + 1 ∧
      ∀ i, i ≤ sim_5_0.l_beams → ∃ q, scan.ranges.get? i = some q ∧
        find_map_range ratLibm sim_5_0 20 (1 / 2) (1 / 2)
          (0 - scan.angle_min + (i : ℚ) * scan.angle_increment) = .ok q :=
  update_scan_ranges ratLibm sim_5_0 0 (1 / 2) (1 / 2) 0
    (by norm_num [sim_5_0, grid_5_0, unit_grid]) (by norm_num [sim_5_0, grid_5_0, unit_grid])
    sim_5_0_length (by norm_num [sim_5_0]) (by norm_num [sim_5_0]) ratLibm_dir 20
    (by norm_num [sim_5_0, grid_5_0, unit_grid])

/-- C4: with `l_max_range > l_min_range > 0` and a positive resolution, a value
returned by `find_map_range` is `l_max_range` or lies in
`[l_min_range, l_max_range]`, and every entry of the `ranges` of a scan lies in
`[0, range_max]` where `range_max = l_max_range + 0.001`. -/
theorem ranges_within_bounds (m : Libm) (s : Sim)
    (_hres : 0 < s.map.resolution) (hmin : 0 < s.l_min_range)
    (hmax : s.l_min_range < s.l_max_range) :
    (∀ (fuel : ℕ) (x y theta q : ℚ), find_map_range m s fuel x y theta = .ok q →
      q = s.l_max_range ∨ (s.l_min_range ≤ q ∧ q ≤ s.l_max_range)) ∧
    (∀ (fuel : ℕ) (now x y theta : ℚ) (scan : LaserScan),
      update_scan m s fuel now x y theta = .ok scan →
      scan.range_max = s.l_max_range + 1 / 1000 ∧
      ∀ q ∈ scan.ranges, 0 ≤ q ∧ q ≤ scan.range_max) := by
  have key : ∀ (fuel : ℕ) (x y theta q : ℚ), find_map_range m s fuel x y theta = .ok q →
      q = s.l_max_range ∨ (s.l_min_range ≤ q ∧ q ≤ s.l_max_range) := by
    intro fuel x y theta q h
    exact ray_loop_range m s _ fuel _ q h
  refine ⟨key, ?_⟩
  intro fuel now x y theta scan h
  obtain ⟨hloop, _, _, _, _, _, _, _, _, hrmax⟩ := update_scan_ok h
  refine ⟨hrmax, ?_⟩
  intro q hq
  obtain ⟨tail, h1, _, h3⟩ := scan_loop_spec m s fuel x y theta _ _ (s.l_beams + 1) 0 []
    scan.ranges rfl hloop
  rw [List.nil_append] at h1
  rw [h1] at hq
  obtain ⟨j, hj⟩ := List.mem_iff_get?.mp hq
  have hjlt : j < s.l_beams + 1 := by
    by_contra hcon
    have : tail.get? j = none := List.get?_eq_none.mpr (by omega)
    rw [this] at hj
    cases hj
  obtain ⟨q1, h4, h5⟩ := h3 j hjlt
  rw [hj] at h4
  have hqq : q = q1 := Option.some.inj h4
  subst hqq
  rw [hrmax]
  rcases key fuel x y _ q h5 with h6 | ⟨h6, h7⟩
  · rw [h6]
    constructor <;> linarith
  · constructor <;> linarith

/-- Witness of C4 with `l_min_range = 1/10` and `l_max_range = 8`. -/
theorem ranges_within_bounds_witness :
    (∀ (fuel : ℕ) (x y theta q : ℚ), find_map_range ratLibm sim_5_0 fuel x y theta = .ok q →
      q = sim_5_0.l_max_range ∨ (sim_5_0.l_min_range ≤ q ∧ q ≤ sim_5_0.l_max_range)) ∧
    (∀ (fuel : ℕ) (now x y theta : ℚ) (scan : LaserScan),
      update_scan ratLibm sim_5_0 fuel now x y theta = .ok scan →
      scan.range_max = sim_5_0.l_max_range + 1 / 1000 ∧
      ∀ q ∈ scan.ranges, 0 ≤ q ∧ q ≤ scan.range_max) :=
  ranges_within_bounds ratLibm sim_5_0 (by norm_num [sim_5_0, grid_5_0, unit_grid])
    (by norm_num [sim_5_0]) (by norm_num [sim_5_0])

/-- C5: for a grid of positive width, height and resolution and a heading whose
direction `(cos, sin)` is not the zero vector, the traversal loop of
`find_map_range` ends within `width + height` iterations (it returns a value
when `map.data` has `width*height` cells), and every iteration changes exactly
one of the two cell indices, by exactly one. -/
theorem traversal_terminates (m : Libm) (s : Sim) (x y theta : ℚ)
    (hw : 0 < s.map.width) (_hh : 0 < s.map.height) (_hres : 0 < s.map.resolution)
    (hdir : m.cos theta ≠ 0 ∨ m.sin theta ≠ 0) :
    (∀ fuel, s.map.width + s.map.height ≤ fuel →
      find_map_range m s fuel x y theta ≠ .error .timeout) ∧
    (s.map.data.length = s.map.width * s.map.height →
      ∃ q, find_map_range m s (s.map.width + s.map.height) x y theta = .ok q) ∧
    (∀ n : ℕ,
      MovedOne
        ((advance (ray_setup s.map x y (m.cos theta) (m.sin theta)))^[n]
          (ray_init s.map x y (m.cos theta) (m.sin theta)))
        ((advance (ray_setup s.map x y (m.cos theta) (m.sin theta)))^[n + 1]
          (ray_init s.map x y (m.cos theta) (m.sin theta)))) := by
  have hd := driven_init s.map x y (m.cos theta) (m.sin theta) hdir
  refine ⟨?_, ?_, ?_⟩
  · intro fuel hfuel
    exact ray_loop_no_timeout_start m s _ _ hd hw fuel hfuel
  · intro hlen
    exact find_map_range_returns m s x y theta hw hlen hdir _ le_rfl
  · intro n
    rw [Function.iterate_succ_apply']
    exact (hd.iterate n).movedOne

/-- Witness of C5 on the 10 by 10 example grid at heading 0. -/
theorem traversal_terminates_witness :
    ∃ q, find_map_range ratLibm sim_5_0 (sim_5_0.map.width + sim_5_0.map.height)
      (1 / 2) (1 / 2) 0 = .ok q :=
  (traversal_terminates ratLibm sim_5_0 (1 / 2) (1 / 2) 0
    (by norm_num [sim_5_0, grid_5_0, unit_grid]) (by norm_num [sim_5_0, grid_5_0, unit_grid])
    (by norm_num [sim_5_0, grid_5_0, unit_grid]) (ratLibm_dir 0)).2.1 sim_5_0_length

/-- C8: two simulator states that differ only in `l_frequency` (both positive)
give, for the same pose and grid, the same `ranges` (and fail alike), while in
each run `scan_time = 1/l_frequency` and `time_increment = scan_time/l_beams`,
so that `scan_time * l_frequency` and `time_increment * l_frequency` agree
between the two runs. -/
theorem ranges_independent_of_frequency (m : Libm) (s : Sim) (f2 : ℚ) (fuel : ℕ)
    (now x y theta : ℚ) (hf1 : 0 < s.l_frequency) (hf2 : 0 < f2) :
    (update_scan m s fuel now x y theta).map LaserScan.ranges =
        (update_scan m { s with l_frequency := f2 } fuel now x y theta).map LaserScan.ranges ∧
      ∀ sc1 sc2, update_scan m s fuel now x y theta = .ok sc1 →
        update_scan m { s with l_frequency := f2 } fuel now x y theta = .ok sc2 →
        sc1.ranges = sc2.ranges ∧
        sc1.scan_time = 1 / s.l_frequency ∧ sc1.time_increment = sc1.scan_time / (s.l_beams : ℚ) ∧
        sc2.scan_time = 1 / f2 ∧ sc2.time_increment = sc2.scan_time / (s.l_beams : ℚ) ∧
        sc1.scan_time * s.l_frequency = sc2.scan_time * f2 ∧
        sc1.time_increment * s.l_frequency = sc2.time_increment * f2 := by
  have hloop := scan_loop_frequency m s f2 fuel x y theta (-s.l_fov / 2)
    (s.l_fov / (s.l_beams : ℚ)) (s.l_beams + 1) 0 [] rfl
  have hmap : (update_scan m s fuel now x y theta).map LaserScan.ranges =
      (update_scan m { s with l_frequency := f2 } fuel now x y theta).map LaserScan.ranges := by
    unfold update_scan
    dsimp only
    rw [hloop]
    rcases scan_loop m s fuel x y theta (-s.l_fov / 2) (s.l_fov / (s.l_beams : ℚ)) 0 []
      with e | out <;> rfl
  refine ⟨hmap, ?_⟩
  intro sc1 sc2 h1 h2
  obtain ⟨_, _, _, _, _, _, ht1, hs1, _, _⟩ := update_scan_ok h1
  obtain ⟨_, _, _, _, _, _, ht2, hs2, _, _⟩ := update_scan_ok h2
  dsimp only at ht2 hs2
  rw [h1, h2] at hmap
  have hr : sc1.ranges = sc2.ranges := Except.ok.inj hmap
  refine ⟨hr, hs1, by rw [ht1, hs1], hs2, by rw [ht2, hs2], ?_, ?_⟩
  · rw [hs1, hs2, one_div_mul_cancel hf1.ne', one_div_mul_cancel hf2.ne']
  · have hdiv : ∀ f n : ℚ, f ≠ 0 → 1 / f / n * f = 1 / n := by
      intro f n hf
      have : 1 / f / n * f = 1 / f * f / n := by ring
      rw [this, one_div_mul_cancel hf]
    rw [ht1, ht2, hdiv _ _ hf1.ne', hdiv _ _ hf2.ne']

/-- Witness of C8: the example state at 10 Hz against the same state at 20 Hz. -/
theorem ranges_independent_of_frequency_witness :
    (update_scan ratLibm sim_5_0 20 0 (1 / 2) (1 / 2) 0).map LaserScan.ranges =
      (update_scan ratLibm { sim_5_0 with l_frequency := 20 } 20 0 (1 / 2) (1 / 2) 0).map
        LaserScan.ranges :=
  (ranges_independent_of_frequency ratLibm sim_5_0 20 20 0 (1 / 2) (1 / 2) 0
    (by norm_num [sim_5_0]) (by norm_num)).1

/-- C9, refuted: `set_laser_params` stores a configuration with
`beam_count = 0`, `max_range = 1 ≤ min_range = 2` and `update_frequency = 0`,
and the scan after storing `max_range = 1`, `min_range = 2` reports them. -/
theorem invalid_params_are_stored :
    (set_laser_params sim_5_0 "laser" 3 0 1 2 0).l_beams = 0 ∧
      (set_laser_params sim_5_0 "laser" 3 0 1 2 0).l_max_range = 1 ∧
      (set_laser_params sim_5_0 "laser" 3 0 1 2 0).l_min_range = 2 ∧
      (set_laser_params sim_5_0 "laser" 3 0 1 2 0).l_frequency = 0 ∧
      ∃ scan, update_scan ratLibm (set_laser_params sim_5_0 "laser" 3 4 1 2 10) 20 0
          (1 / 2) (1 / 2) 0 = .ok scan ∧
        scan.range_min = 2 ∧ scan.range_max = 1 + 1 / 1000 := by
  refine ⟨rfl, rfl, rfl, rfl, ?_⟩
  obtain ⟨scan, hscan⟩ := update_scan_returns ratLibm
    (set_laser_params sim_5_0 "laser" 3 4 1 2 10) 0 (1 / 2) (1 / 2) 0
    (by norm_num [set_laser_params, sim_5_0, grid_5_0, unit_grid]) sim_5_0_length ratLibm_dir 20
    (by norm_num [set_laser_params, sim_5_0, grid_5_0, unit_grid])
  obtain ⟨_, _, _, _, _, _, _, _, h1, h2⟩ := update_scan_ok hscan
  exact ⟨scan, hscan, h1, h2⟩

/-- C9, amended: `set_laser_params` validates nothing.  Whatever the six
values are, valid or not, they become the active sensor parameters, and the
map is left as it was. -/
theorem set_laser_params_stores (s : Sim) (frame_id : String) (fov : ℚ) (beam_count : ℕ)
    (max_range min_range update_frequency : ℚ) :
    (set_laser_params s frame_id fov beam_count max_range min_range update_frequency).l_frame
        = frame_id ∧
      (set_laser_params s frame_id fov beam_count max_range min_range update_frequency).l_fov
        = fov ∧
      (set_laser_params s frame_id fov beam_count max_range min_range update_frequency).l_beams
        = beam_count ∧
      (set_laser_params s frame_id fov beam_count max_range min_range
        update_frequency).l_max_range = max_range ∧
      (set_laser_params s frame_id fov beam_count max_range min_range
        update_frequency).l_min_range = min_range ∧
      (set_laser_params s frame_id fov beam_count max_range min_range
        update_frequency).l_frequency = update_frequency ∧
      (set_laser_params s frame_id fov beam_count max_range min_range update_frequency).map
        = s.map :=
  ⟨rfl, rfl, rfl, rfl, rfl, rfl, rfl⟩

/-- C10: when `map.data` has `width*height` cells, every cell `(x, y)` that
`find_map_range` passes to `get_map_occupancy` has `0 ≤ x < width` and
`0 ≤ y < height`, its index is below the length of `map.data`, the lookup
yields a value, and the run never ends in an out-of-bounds read. -/
theorem occupancy_calls_in_bounds (m : Libm) (s : Sim) (fuel : ℕ) (x y theta : ℚ)
    (hlen : s.map.data.length = s.map.width * s.map.height) :
    (∀ p ∈ (find_map_range_calls m s fuel x y theta).2,
      0 ≤ p.1 ∧ p.1 < (s.map.width : ℤ) ∧ 0 ≤ p.2 ∧ p.2 < (s.map.height : ℤ) ∧
        cell_index s.map p.1 p.2 < s.map.data.length ∧
        ∃ occ, get_map_occupancy s.map p.1 p.2 = some occ) ∧
      find_map_range m s fuel x y theta ≠ .error .fault := by
  refine ⟨?_, ?_⟩
  · intro p hp
    have hin := ray_loop_calls m s _ fuel _ p hp
    obtain ⟨h1, h2, h3, h4⟩ := outside_map_eq_false hin
    refine ⟨h1, h2, h3, h4, ?_, get_map_occupancy_isSome hlen hin⟩
    rw [hlen]
    exact cell_index_lt h1 h2 h3 h4
  · exact ray_loop_no_fault m s _ hlen fuel _

/-- Witness of C10 on the 10 by 10 example grid at heading 0. -/
theorem occupancy_calls_in_bounds_witness :
    find_map_range ratLibm sim_5_0 20 (1 / 2) (1 / 2) 0 ≠ .error .fault :=
  (occupancy_calls_in_bounds ratLibm sim_5_0 20 (1 / 2) (1 / 2) 0 sim_5_0_length).2

/-- C11: for a beam count that is positive and does not wrap the counter, a
scan returned by `update_scan` has `angle_min = -l_fov/2`,
`angle_max = l_fov/2`, `angle_increment = l_fov/l_beams`,
`range_min = l_min_range`, `range_max = l_max_range + 0.001` and the configured
frame id, so that `angle_min + l_beams*angle_increment = angle_max`; and
`update_scan` does return a scan on a well-formed map once every beam has
`width + height` iterations of fuel. -/
theorem scan_header_fields (m : Libm) (s : Sim) (now x y theta : ℚ)
    (hbeams : 0 < s.l_beams) (_hwrap : s.l_beams + 1 < 2 ^ 32) :
    (∀ (fuel : ℕ) (scan : LaserScan), update_scan m s fuel now x y theta = .ok scan →
      scan.angle_min = -s.l_fov / 2 ∧ scan.angle_max = s.l_fov / 2 ∧
      scan.angle_increment = s.l_fov / (s.l_beams : ℚ) ∧
      scan.range_min = s.l_min_range ∧ scan.range_max = s.l_max_range + 1 / 1000 ∧
      scan.frame_id = s.l_frame ∧
      scan.angle_min + (s.l_beams : ℚ) * scan.angle_increment = scan.angle_max) ∧
    (0 < s.map.width → 0 < s.map.resolution →
      s.map.data.length = s.map.width * s.map.height →
      (∀ t, m.cos t ≠ 0 ∨ m.sin t ≠ 0) →
      ∀ fuel, s.map.width + s.map.height ≤ fuel →
        ∃ scan, update_scan m s fuel now x y theta = .ok scan) := by
  refine ⟨?_, ?_⟩
  · intro fuel scan h
    obtain ⟨_, h1, _, h2, h3, h4, _, _, h5, h6⟩ := update_scan_ok h
    refine ⟨h2, h3, h4, h5, h6, h1, ?_⟩
    have hne : (s.l_beams : ℚ) ≠ 0 := by exact_mod_cast hbeams.ne'
    rw [h2, h3, h4, mul_div_cancel₀ _ hne]
    ring
  · intro hw _ hlen hdir fuel hfuel
    exact update_scan_returns m s now x y theta hw hlen hdir fuel hfuel

/-- Witness of C11 on the 10 by 10 example grid with 4 beams: a scan is
returned and its angular fields are those of `l_fov = 3`. -/
theorem scan_header_fields_witness :
    ∃ scan, update_scan ratLibm sim_5_0 20 0 (1 / 2) (1 / 2) 0 = .ok scan ∧
      scan.angle_min = -sim_5_0.l_fov / 2 ∧ scan.angle_max = sim_5_0.l_fov / 2 ∧
      scan.angle_min + (sim_5_0.l_beams : ℚ) * scan.angle_increment = scan.angle_max := by
  have h := scan_header_fields ratLibm sim_5_0 0 (1 / 2) (1 / 2) 0 (by norm_num [sim_5_0])
    (by norm_num [sim_5_0])
  obtain ⟨scan, hscan⟩ := h.2 (by norm_num [sim_5_0, grid_5_0, unit_grid])
    (by norm_num [sim_5_0, grid_5_0, unit_grid]) sim_5_0_length
    ratLibm_dir 20 (by norm_num [sim_5_0, grid_5_0, unit_grid])
  have hf := h.1 20 scan hscan
  exact ⟨scan, hscan, hf.1, hf.2.1, hf.2.2.2.2.2.2⟩

/-- C12: when the loop has advanced to a cell inside the grid whose
`current_range` is at most `l_max_range`, the function returns there, with
`current_range`, exactly when the cell's occupancy is at least 60 and
`current_range ≥ l_min_range`; otherwise the loop goes on.  So a cell of value
59, -1 or 0 never stops the ray and a cell of value 60 reached at
`l_min_range ≤ current_range` does. -/
theorem occupancy_threshold_rule (m : Libm) (s : Sim) (c : RaySetup) (r1 : Ray) (occ : ℤ)
    (hin : outside_map s.map r1.current0 r1.current1 = false)
    (hmax : current_range m s.map c r1 ≤ s.l_max_range)
    (hocc : get_map_occupancy s.map r1.current0 r1.current1 = some occ) :
    (examine m s c r1 = some (.ok (current_range m s.map c r1)) ↔
      (60 ≤ occ ∧ s.l_min_range ≤ current_range m s.map c r1)) ∧
    (examine m s c r1 = none ↔ ¬ (60 ≤ occ ∧ s.l_min_range ≤ current_range m s.map c r1)) ∧
    (occ = 59 ∨ occ = -1 ∨ occ = 0 → examine m s c r1 = none) ∧
    (occ = 60 → s.l_min_range ≤ current_range m s.map c r1 →
      examine m s c r1 = some (.ok (current_range m s.map c r1))) ∧
    (∀ (fuel : ℕ) (r : Ray), advance c r = r1 →
      (ray_loop m s c (fuel + 1) r).1 =
        if 60 ≤ occ ∧ s.l_min_range ≤ current_range m s.map c r1 then
          .ok (current_range m s.map c r1)
        else (ray_loop m s c fuel r1).1) := by
  have hex : examine m s c r1 =
      if 60 ≤ occ ∧ s.l_min_range ≤ current_range m s.map c r1 then
        some (.ok (current_range m s.map c r1))
      else none := by
    unfold examine
    dsimp only
    rw [if_neg (by simp [hin]), if_neg (not_lt.mpr hmax), hocc]
    dsimp only
    by_cases h60 : 60 ≤ occ
    · by_cases hmin : s.l_min_range ≤ current_range m s.map c r1
      · rw [if_pos h60, if_neg (not_lt.mpr hmin), if_pos ⟨h60, hmin⟩]
      · rw [if_pos h60, if_pos (not_le.mp hmin), if_neg (fun h => hmin h.2)]
    · rw [if_neg h60, if_neg (fun h => h60 h.1)]
  refine ⟨?_, ?_, ?_, ?_, ?_⟩
  · rw [hex]
    by_cases h : 60 ≤ occ ∧ s.l_min_range ≤ current_range m s.map c r1
    · simp [h]
    · simp [h]
  · rw [hex]
    by_cases h : 60 ≤ occ ∧ s.l_min_range ≤ current_range m s.map c r1
    · simp [h]
    · simp [h]
  · intro h
    rw [hex, if_neg]
    rintro ⟨h60, _⟩
    omega
  · intro h hmin
    rw [hex, if_pos ⟨by omega, hmin⟩]
  · intro fuel r hr
    rw [ray_loop_examine, hr, hex]
    by_cases h : 60 ≤ occ ∧ s.l_min_range ≤ current_range m s.map c r1
    · rw [if_pos h, if_pos h]
      rfl
    · rw [if_neg h, if_neg h]
      rfl

/-- Witness of C12: on the 10 by 10 example grid the occupied cell (5, 0),
reached from the start cell (0, 0) at range 5, stops the ray. -/
theorem occupancy_threshold_rule_witness :
    examine ratLibm sim_5_0 ⟨0, 0, 1, 0, ((1 : ℚ) : WithTop ℚ), ⊤⟩
        ⟨5, 0, ((5 : ℚ) : WithTop ℚ), ⊤⟩ =
      some (.ok (current_range ratLibm sim_5_0.map ⟨0, 0, 1, 0, ((1 : ℚ) : WithTop ℚ), ⊤⟩
        ⟨5, 0, ((5 : ℚ) : WithTop ℚ), ⊤⟩)) := by
  have hcr : current_range ratLibm sim_5_0.map ⟨0, 0, 1, 0, ((1 : ℚ) : WithTop ℚ), ⊤⟩
      ⟨5, 0, ((5 : ℚ) : WithTop ℚ), ⊤⟩ = 5 := by
    have e : (((5 - 0 : ℤ) : ℚ)) ^ 2 + (((0 - 0 : ℤ) : ℚ)) ^ 2 = 5 * 5 := by norm_num
    simp only [current_range, ratLibm]
    rw [e, Rat.sqrt_eq]
    norm_num [sim_5_0, grid_5_0, unit_grid]
  exact (occupancy_threshold_rule ratLibm sim_5_0 ⟨0, 0, 1, 0, ((1 : ℚ) : WithTop ℚ), ⊤⟩
    ⟨5, 0, ((5 : ℚ) : WithTop ℚ), ⊤⟩ 100
    (by simp [outside_map, sim_5_0, grid_5_0, unit_grid])
    (by rw [hcr]; norm_num [sim_5_0])
    (by simp [get_map_occupancy, cell_index, sim_5_0, grid_5_0, unit_grid])).1.mpr
    ⟨by norm_num, by rw [hcr]; norm_num [sim_5_0]⟩

/-- C13, refuted: for the ray from (1/2, 1/2) along (-3/5, -4/5) on the
3 by 3 grid the two `tMax` are equal on entry to the loop, and the first
iteration advances the y index (axis 1) and leaves the x index (axis 0). -/
theorem tie_advances_axis_one :
    (ray_init sim_free.map (1 / 2) (1 / 2) (ratLibm.cos (-2)) (ratLibm.sin (-2))).tMax0 =
        (ray_init sim_free.map (1 / 2) (1 / 2) (ratLibm.cos (-2)) (ratLibm.sin (-2))).tMax1 ∧
      (advance (ray_setup sim_free.map (1 / 2) (1 / 2) (ratLibm.cos (-2)) (ratLibm.sin (-2)))
        (ray_init sim_free.map (1 / 2) (1 / 2) (ratLibm.cos (-2)) (ratLibm.sin (-2)))).current0 =
        (ray_init sim_free.map (1 / 2) (1 / 2) (ratLibm.cos (-2)) (ratLibm.sin (-2))).current0 ∧
      (advance (ray_setup sim_free.map (1 / 2) (1 / 2) (ratLibm.cos (-2)) (ratLibm.sin (-2)))
        (ray_init sim_free.map (1 / 2) (1 / 2) (ratLibm.cos (-2)) (ratLibm.sin (-2)))).current1 =
        (ray_init sim_free.map (1 / 2) (1 / 2) (ratLibm.cos (-2)) (ratLibm.sin (-2))).current1
          + 1 := by
  have hc : ratLibm.cos (-2) = -3 / 5 := by norm_num [ratLibm]
  have hs : ratLibm.sin (-2) = -4 / 5 := by norm_num [ratLibm]
  have hst : start_cell sim_free.map (1 / 2) (1 / 2) (-3 / 5) (-4 / 5) = (0, 0) := by
    norm_num [start_cell, get_world2map_coordinates, sim_free, unit_grid]
  have hi : ray_init sim_free.map (1 / 2) (1 / 2) (-3 / 5) (-4 / 5) =
      ⟨0, 0, ((0 : ℚ) : WithTop ℚ), ((0 : ℚ) : WithTop ℚ)⟩ := by
    rw [ray_init, hst]
    norm_num [get_map2world_coordinates, tMax_of, step_of, sim_free, unit_grid]
  have hstep : (ray_setup sim_free.map (1 / 2) (1 / 2) (-3 / 5) (-4 / 5)).step1 = 1 := by
    norm_num [ray_setup, step_of]
  rw [hc, hs, hi]
  refine ⟨rfl, ?_, ?_⟩
  · rw [advance, if_neg (lt_irrefl _)]
  · rw [advance, if_neg (lt_irrefl _)]
    simp only [hstep]

/-- C13, amended: an iteration advances axis 0 when `tMax[0] < tMax[1]` and
axis 1 otherwise, so the axis with the strictly smaller `tMax` is advanced and
a tie `tMax[0] = tMax[1]` is resolved by advancing axis 1 (the y index). -/
theorem advance_axis_choice (c : RaySetup) (r : Ray) :
    (r.tMax0 < r.tMax1 →
      (advance c r).current0 = r.current0 + c.step0 ∧ (advance c r).current1 = r.current1 ∧
      (advance c r).tMax0 = r.tMax0 + c.tDelta0 ∧ (advance c r).tMax1 = r.tMax1) ∧
    (r.tMax1 < r.tMax0 →
      (advance c r).current1 = r.current1 + c.step1 ∧ (advance c r).current0 = r.current0 ∧
      (advance c r).tMax1 = r.tMax1 + c.tDelta1 ∧ (advance c r).tMax0 = r.tMax0) ∧
    (r.tMax0 = r.tMax1 →
      (advance c r).current1 = r.current1 + c.step1 ∧ (advance c r).current0 = r.current0 ∧
      (advance c r).tMax1 = r.tMax1 + c.tDelta1 ∧ (advance c r).tMax0 = r.tMax0) := by
  refine ⟨?_, ?_, ?_⟩
  · intro h
    rw [advance, if_pos h]
    exact ⟨rfl, rfl, rfl, rfl⟩
  · intro h
    rw [advance, if_neg (not_lt.mpr h.le)]
    exact ⟨rfl, rfl, rfl, rfl⟩
  · intro h
    rw [advance, if_neg (not_lt.mpr h.ge)]
    exact ⟨rfl, rfl, rfl, rfl⟩

/-- C14: the loop of `find_map_range` is entered with, on each axis `i` of
direction component `d_i`: `step_i = -1` if `d_i > 0`, `+1` if `d_i < 0`, `0`
if `d_i = 0`; for `d_i ≠ 0`, `tMax_i = (b_i - origin_i)/d_i` where
`b_i = start_i*resolution + gridOrigin_i - resolution/2`, plus `resolution`
when `step_i = +1`, and `tDelta_i = resolution/|d_i|`; for `d_i = 0` both are
the maximum value. -/
theorem stepping_setup (map : OccupancyGrid) (x y dir0 dir1 : ℚ) :
    ((ray_setup map x y dir0 dir1).step0 = if dir0 > 0 then -1 else if dir0 < 0 then 1 else 0) ∧
    ((ray_setup map x y dir0 dir1).step1 = if dir1 > 0 then -1 else if dir1 < 0 then 1 else 0) ∧
    (dir0 ≠ 0 →
      (ray_init map x y dir0 dir1).tMax0 =
        (((((start_cell map x y dir0 dir1).1 : ℚ) * map.resolution + map.origin_x
            - map.resolution / 2
            + (if (ray_setup map x y dir0 dir1).step0 = 1 then map.resolution else 0)
            - x) / dir0 : ℚ) : WithTop ℚ) ∧
      (ray_setup map x y dir0 dir1).tDelta0 = ((map.resolution / |dir0| : ℚ) : WithTop ℚ)) ∧
    (dir1 ≠ 0 →
      (ray_init map x y dir0 dir1).tMax1 =
        (((((start_cell map x y dir0 dir1).2 : ℚ) * map.resolution + map.origin_y
            - map.resolution / 2
            + (if (ray_setup map x y dir0 dir1).step1 = 1 then map.resolution else 0)
            - y) / dir1 : ℚ) : WithTop ℚ) ∧
      (ray_setup map x y dir0 dir1).tDelta1 = ((map.resolution / |dir1| : ℚ) : WithTop ℚ)) ∧
    (dir0 = 0 →
      (ray_init map x y dir0 dir1).tMax0 = ⊤ ∧ (ray_setup map x y dir0 dir1).tDelta0 = ⊤) ∧
    (dir1 = 0 →
      (ray_init map x y dir0 dir1).tMax1 = ⊤ ∧ (ray_setup map x y dir0 dir1).tDelta1 = ⊤) ∧
    (∀ (m : Libm) (s : Sim) (fuel : ℕ) (theta : ℚ),
      find_map_range m s fuel x y theta =
        (ray_loop m s (ray_setup s.map x y (m.cos theta) (m.sin theta)) fuel
          (ray_init s.map x y (m.cos theta) (m.sin theta))).1) := by
  have key : ∀ (border origin dir : ℚ), dir ≠ 0 →
      tMax_of map.resolution (border - 1 / 2 * map.resolution) origin dir =
        (((border - map.resolution / 2 + (if step_of dir = 1 then map.resolution else 0)
          - origin) / dir : ℚ) : WithTop ℚ) ∧
      tDelta_of map.resolution dir = ((map.resolution / |dir| : ℚ) : WithTop ℚ) := by
    intro border origin dir hd
    unfold tMax_of tDelta_of
    rcases step_of_cases dir hd with h1 | h1
    · rw [h1]
      norm_num
      congr 1
      ring
    · rw [h1]
      norm_num
      congr 1
      ring
  refine ⟨rfl, rfl, ?_, ?_, ?_, ?_, ?_⟩
  · intro hd
    exact key _ _ _ hd
  · intro hd
    exact key _ _ _ hd
  · intro hd
    subst hd
    simp [ray_init, ray_setup, tMax_of, tDelta_of, step_of]
  · intro hd
    subst hd
    simp [ray_init, ray_setup, tMax_of, tDelta_of, step_of]
  · intro m s fuel theta
    rfl

/-- C15: the start cell is the cell of `(x, y)` when that cell is inside the
grid; otherwise it is the cell of
`(x + cos(theta)*|gridOrigin.x - x|, y + sin(theta)*|gridOrigin.y - y|)`,
taken as it is, inside the grid or not.  The loop starts at that cell and
`current_range` is measured from it. -/
theorem start_cell_determination (m : Libm) (s : Sim) (x y theta : ℚ) :
    (¬ ((get_world2map_coordinates s.map x y).1 < 0 ∨
        (get_world2map_coordinates s.map x y).2 < 0 ∨
        (get_world2map_coordinates s.map x y).1 ≥ (s.map.width : ℤ) ∨
        (get_world2map_coordinates s.map x y).2 ≥ (s.map.height : ℤ)) →
      start_cell s.map x y (m.cos theta) (m.sin theta) = get_world2map_coordinates s.map x y) ∧
    (((get_world2map_coordinates s.map x y).1 < 0 ∨
        (get_world2map_coordinates s.map x y).2 < 0 ∨
        (get_world2map_coordinates s.map x y).1 ≥ (s.map.width : ℤ) ∨
        (get_world2map_coordinates s.map x y).2 ≥ (s.map.height : ℤ)) →
      start_cell s.map x y (m.cos theta) (m.sin theta) =
        get_world2map_coordinates s.map (x + m.cos theta * |s.map.origin_x - x|)
          (y + m.sin theta * |s.map.origin_y - y|)) ∧
    ((ray_init s.map x y (m.cos theta) (m.sin theta)).current0,
        (ray_init s.map x y (m.cos theta) (m.sin theta)).current1) =
      start_cell s.map x y (m.cos theta) (m.sin theta) ∧
    ((ray_setup s.map x y (m.cos theta) (m.sin theta)).start_x,
        (ray_setup s.map x y (m.cos theta) (m.sin theta)).start_y) =
      start_cell s.map x y (m.cos theta) (m.sin theta) ∧
    (∀ r : Ray,
      current_range m s.map (ray_setup s.map x y (m.cos theta) (m.sin theta)) r =
        m.sqrt
          (((r.current0 - (start_cell s.map x y (m.cos theta) (m.sin theta)).1 : ℤ) : ℚ) ^ 2 +
            ((r.current1 - (start_cell s.map x y (m.cos theta) (m.sin theta)).2 : ℤ) : ℚ) ^ 2)
          * s.map.resolution) := by
  refine ⟨?_, ?_, rfl, rfl, fun _ => rfl⟩
  · intro h
    unfold start_cell
    dsimp only
    rw [if_neg h]
  · intro h
    unfold start_cell
    dsimp only
    rw [if_pos h]

/-- Witness of C15: from (-5/2, 1/2) on the 3 by 3 grid along (-3/5, 4/5) the
cell of the origin, (-3, 0), is outside the grid and the projected start cell,
(-4, 0), is outside it as well. -/
theorem start_cell_determination_witness :
    start_cell sim_free.map (-5 / 2) (1 / 2) (ratLibm.cos 2) (ratLibm.sin 2) = (-4, 0) := by
  rw [(start_cell_determination ratLibm sim_free (-5 / 2) (1 / 2) 2).2.1
    (by norm_num [get_world2map_coordinates, sim_free, unit_grid])]
  norm_num [get_world2map_coordinates, sim_free, unit_grid, ratLibm, abs_of_pos]

/-! ## Distance from the start cell -/

theorem disp_init (map : OccupancyGrid) (x y dir0 dir1 : ℚ) :
    disp (ray_setup map x y dir0 dir1) (ray_init map x y dir0 dir1) = 0 := by
  simp [disp, ray_setup, ray_init]

theorem disp_pos {c : RaySetup} {r : Ray} (h : 1 ≤ disp c r) :
    (r.current0, r.current1) ≠ (c.start_x, c.start_y) ∧
      1 ≤ (r.current0 - c.start_x) ^ 2 + (r.current1 - c.start_y) ^ 2 := by
  have key : 1 ≤ (r.current0 - c.start_x) ^ 2 + (r.current1 - c.start_y) ^ 2 := by
    by_contra hcon
    have h0 := sq_nonneg (r.current0 - c.start_x)
    have h1 := sq_nonneg (r.current1 - c.start_y)
    have e0 : (r.current0 - c.start_x) ^ 2 = 0 := by omega
    have e1 : (r.current1 - c.start_y) ^ 2 = 0 := by omega
    have d0 : r.current0 - c.start_x = 0 := pow_eq_zero_iff (two_ne_zero) |>.mp e0
    have d1 : r.current1 - c.start_y = 0 := pow_eq_zero_iff (two_ne_zero) |>.mp e1
    unfold disp at h
    rw [d0, d1] at h
    simp at h
  refine ⟨?_, key⟩
  intro heq
  have e0 : r.current0 = c.start_x := congrArg Prod.fst heq
  have e1 : r.current1 = c.start_y := congrArg Prod.snd heq
  rw [e0, e1] at key
  simp at key

theorem current_range_ge_resolution (m : Libm) (map : OccupancyGrid) {c : RaySetup} {r : Ray}
    (hres : 0 < map.resolution) (hsqrt : ∀ k : ℤ, 1 ≤ k → 1 ≤ m.sqrt (k : ℚ))
    (h : 1 ≤ disp c r) : map.resolution ≤ current_range m map c r := by
  have h1 := (disp_pos h).2
  have h2 := hsqrt _ h1
  unfold current_range
  have e : (((r.current0 - c.start_x : ℤ) : ℚ)) ^ 2 + (((r.current1 - c.start_y : ℤ) : ℚ)) ^ 2 =
      (((r.current0 - c.start_x) ^ 2 + (r.current1 - c.start_y) ^ 2 : ℤ) : ℚ) := by
    push_cast
    ring
  rw [e]
  exact le_mul_of_one_le_left hres.le h2

theorem ratLibm_sqrt (k : ℤ) (h : 1 ≤ k) : 1 ≤ ratLibm.sqrt (k : ℚ) := by
  have h1 : 0 < Nat.sqrt k.toNat := Nat.sqrt_pos.mpr (by omega)
  have h2 : (1 : ℤ) ≤ Int.sqrt k := by
    unfold Int.sqrt
    exact_mod_cast h1
  simp only [ratLibm]
  rw [Rat.sqrt_intCast]
  exact_mod_cast h2

theorem sim_start_occupied_length :
    sim_start_occupied.map.data.length =
      sim_start_occupied.map.width * sim_start_occupied.map.height := by
  simp [sim_start_occupied, unit_grid]

/-- C16: for a heading whose direction is not the zero vector, no cell that
`find_map_range` examines is the start cell; a value it returns is
`l_max_range` or the range of an occupied cell other than the start cell,
which is at least one resolution unit; and when every cell of the grid but the
start cell is free, the function returns `l_max_range`, whatever the start
cell holds. -/
theorem start_cell_not_examined (m : Libm) (s : Sim) (x y theta : ℚ)
    (hres : 0 < s.map.resolution)
    (hdir : m.cos theta ≠ 0 ∨ m.sin theta ≠ 0)
    (hsqrt : ∀ k : ℤ, 1 ≤ k → 1 ≤ m.sqrt (k : ℚ)) :
    (∀ fuel, ∀ p ∈ (find_map_range_calls m s fuel x y theta).2,
      p ≠ start_cell s.map x y (m.cos theta) (m.sin theta)) ∧
    (∀ fuel q, find_map_range m s fuel x y theta = .ok q →
      q = s.l_max_range ∨
        ∃ cx cy occ, (cx, cy) ≠ start_cell s.map x y (m.cos theta) (m.sin theta) ∧
          get_map_occupancy s.map cx cy = some occ ∧ 60 ≤ occ ∧
          q = m.sqrt
            (((cx - (start_cell s.map x y (m.cos theta) (m.sin theta)).1 : ℤ) : ℚ) ^ 2 +
              ((cy - (start_cell s.map x y (m.cos theta) (m.sin theta)).2 : ℤ) : ℚ) ^ 2)
            * s.map.resolution ∧
          s.map.resolution ≤ q) ∧
    (0 < s.map.width → s.map.data.length = s.map.width * s.map.height →
      (∀ cx cy, outside_map s.map cx cy = false →
        (cx, cy) ≠ start_cell s.map x y (m.cos theta) (m.sin theta) →
        ∀ occ, get_map_occupancy s.map cx cy = some occ → occ < 60) →
      ∀ fuel, s.map.width + s.map.height ≤ fuel →
        find_map_range m s fuel x y theta = .ok s.l_max_range) := by
  have hI : ∀ r, (Driven (ray_setup s.map x y (m.cos theta) (m.sin theta)) r ∧
      0 ≤ disp (ray_setup s.map x y (m.cos theta) (m.sin theta)) r) →
      (Driven (ray_setup s.map x y (m.cos theta) (m.sin theta))
          (advance (ray_setup s.map x y (m.cos theta) (m.sin theta)) r) ∧
        0 ≤ disp (ray_setup s.map x y (m.cos theta) (m.sin theta))
          (advance (ray_setup s.map x y (m.cos theta) (m.sin theta)) r)) := by
    rintro r ⟨h1, h2⟩
    refine ⟨h1.next, ?_⟩
    rw [disp_advance h1]
    omega
  have h0 : Driven (ray_setup s.map x y (m.cos theta) (m.sin theta))
        (ray_init s.map x y (m.cos theta) (m.sin theta)) ∧
      0 ≤ disp (ray_setup s.map x y (m.cos theta) (m.sin theta))
        (ray_init s.map x y (m.cos theta) (m.sin theta)) :=
    ⟨driven_init _ _ _ _ _ hdir, by rw [disp_init]⟩
  have hstep : ∀ r0, (Driven (ray_setup s.map x y (m.cos theta) (m.sin theta)) r0 ∧
      0 ≤ disp (ray_setup s.map x y (m.cos theta) (m.sin theta)) r0) →
      1 ≤ disp (ray_setup s.map x y (m.cos theta) (m.sin theta))
        (advance (ray_setup s.map x y (m.cos theta) (m.sin theta)) r0) := by
    rintro r0 ⟨h1, h2⟩
    rw [disp_advance h1]
    omega
  have hinv := fun fuel => ray_loop_inv m s (ray_setup s.map x y (m.cos theta) (m.sin theta)) _
    hI fuel (ray_init s.map x y (m.cos theta) (m.sin theta)) h0
  have hhit : ∀ fuel q, find_map_range m s fuel x y theta = .ok q →
      q = s.l_max_range ∨
        ∃ cx cy occ, outside_map s.map cx cy = false ∧
          (cx, cy) ≠ start_cell s.map x y (m.cos theta) (m.sin theta) ∧
          get_map_occupancy s.map cx cy = some occ ∧ 60 ≤ occ ∧
          q = m.sqrt
            (((cx - (start_cell s.map x y (m.cos theta) (m.sin theta)).1 : ℤ) : ℚ) ^ 2 +
              ((cy - (start_cell s.map x y (m.cos theta) (m.sin theta)).2 : ℤ) : ℚ) ^ 2)
            * s.map.resolution ∧
          s.map.resolution ≤ q := by
    intro fuel q hq
    rcases (hinv fuel).2 q hq with h | ⟨r0, occ, hr0, hin, hocc, h60, hq1⟩
    · exact Or.inl h
    · right
      have hd := hstep r0 hr0
      refine ⟨_, _, occ, hin, (disp_pos hd).1, hocc, h60, hq1, ?_⟩
      rw [hq1]
      exact current_range_ge_resolution m s.map hres hsqrt hd
  refine ⟨?_, ?_, ?_⟩
  · intro fuel p hp
    obtain ⟨r0, hr0, _, hp1⟩ := (hinv fuel).1 p hp
    rw [hp1]
    exact (disp_pos (hstep r0 hr0)).1
  · intro fuel q hq
    rcases hhit fuel q hq with h | ⟨cx, cy, occ, _, h1, h2, h3, h4, h5⟩
    · exact Or.inl h
    · exact Or.inr ⟨cx, cy, occ, h1, h2, h3, h4, h5⟩
  · intro hw hlen hfree fuel hfuel
    obtain ⟨q, hq⟩ := find_map_range_returns m s x y theta hw hlen hdir fuel hfuel
    rcases hhit fuel q hq with h | ⟨cx, cy, occ, hin, h1, h2, h3, _, _⟩
    · rw [hq, h]
    · have := hfree cx cy hin h1 occ h2
      omega

/-- Witness of C16: on the 3 by 3 grid whose only occupied cell is the start
cell (0, 0), of value 100, the ray from (1/2, 1/2) at heading 0 returns
`l_max_range`. -/
theorem start_cell_not_examined_witness :
    get_map_occupancy sim_start_occupied.map 0 0 = some 100 ∧
      start_cell sim_start_occupied.map (1 / 2) (1 / 2) (ratLibm.cos 0) (ratLibm.sin 0) = (0, 0) ∧
      find_map_range ratLibm sim_start_occupied 6 (1 / 2) (1 / 2) 0 = .ok 8 := by
  have hst : start_cell sim_start_occupied.map (1 / 2) (1 / 2) (ratLibm.cos 0) (ratLibm.sin 0)
      = (0, 0) := by
    norm_num [start_cell, get_world2map_coordinates, sim_start_occupied, unit_grid]
  refine ⟨by simp [get_map_occupancy, cell_index, sim_start_occupied, unit_grid], hst, ?_⟩
  refine (start_cell_not_examined ratLibm sim_start_occupied (1 / 2) (1 / 2) 0
    (by norm_num [sim_start_occupied, unit_grid]) (ratLibm_dir 0) ratLibm_sqrt).2.2
    (by norm_num [sim_start_occupied, unit_grid]) sim_start_occupied_length ?_ 6
    (by norm_num [sim_start_occupied, unit_grid])
  intro cx cy hin hne occ hocc
  rw [hst] at hne
  obtain ⟨h1, h2, h3, h4⟩ := outside_map_eq_false hin
  have h2a : cx < 3 := by simpa [sim_start_occupied, unit_grid] using h2
  have h4a : cy < 3 := by simpa [sim_start_occupied, unit_grid] using h4
  interval_cases cx <;> interval_cases cy <;>
    first
      | exact absurd rfl hne
      | (simp [get_map_occupancy, cell_index, sim_start_occupied, unit_grid,
          List.replicate] at hocc
         omega)

/-! ## Direction of travel -/

theorem advance_current0_le {c : RaySetup} (r : Ray) (h : c.step0 ≤ 0) :
    (advance c r).current0 ≤ r.current0 := by
  unfold advance
  split
  · simp only
    omega
  · exact le_rfl

theorem advance_current0_ge {c : RaySetup} (r : Ray) (h : 0 ≤ c.step0) :
    r.current0 ≤ (advance c r).current0 := by
  unfold advance
  split
  · simp only
    omega
  · exact le_rfl

theorem advance_current1_le {c : RaySetup} (r : Ray) (h : c.step1 ≤ 0) :
    (advance c r).current1 ≤ r.current1 := by
  unfold advance
  split
  · exact le_rfl
  · simp only
    omega

theorem advance_current1_ge {c : RaySetup} (r : Ray) (h : 0 ≤ c.step1) :
    r.current1 ≤ (advance c r).current1 := by
  unfold advance
  split
  · exact le_rfl
  · simp only
    omega

theorem visited_succ (m : Libm) (s : Sim) (x y theta : ℚ) (n : ℕ) :
    visited m s x y theta (n + 1) =
      advance (ray_setup s.map x y (m.cos theta) (m.sin theta)) (visited m s x y theta n) := by
  unfold visited
  rw [Function.iterate_succ_apply']

theorem visited_zero_cell (m : Libm) (s : Sim) (x y theta : ℚ) :
    (visited m s x y theta 0).current0 = (start_cell s.map x y (m.cos theta) (m.sin theta)).1 ∧
      (visited m s x y theta 0).current1 =
        (start_cell s.map x y (m.cos theta) (m.sin theta)).2 :=
  ⟨rfl, rfl⟩

theorem step0_of_pos (map : OccupancyGrid) (x y : ℚ) {dir0 : ℚ} (dir1 : ℚ) (h : 0 < dir0) :
    (ray_setup map x y dir0 dir1).step0 = -1 := by
  simp [ray_setup, step_of, h]

theorem step0_of_neg (map : OccupancyGrid) (x y : ℚ) {dir0 : ℚ} (dir1 : ℚ) (h : dir0 < 0) :
    (ray_setup map x y dir0 dir1).step0 = 1 := by
  simp [ray_setup, step_of, h, not_lt.mpr h.le]

theorem step1_of_pos (map : OccupancyGrid) (x y dir0 : ℚ) {dir1 : ℚ} (h : 0 < dir1) :
    (ray_setup map x y dir0 dir1).step1 = -1 := by
  simp [ray_setup, step_of, h]

theorem step1_of_neg (map : OccupancyGrid) (x y dir0 : ℚ) {dir1 : ℚ} (h : dir1 < 0) :
    (ray_setup map x y dir0 dir1).step1 = 1 := by
  simp [ray_setup, step_of, h, not_lt.mpr h.le]

theorem visited_x_le (m : Libm) (s : Sim) (x y theta : ℚ)
    (h : (ray_setup s.map x y (m.cos theta) (m.sin theta)).step0 ≤ 0) (n : ℕ) :
    (visited m s x y theta (n + 1)).current0 ≤ (visited m s x y theta n).current0 ∧
      (visited m s x y theta n).current0 ≤
        (start_cell s.map x y (m.cos theta) (m.sin theta)).1 := by
  refine ⟨by rw [visited_succ]; exact advance_current0_le _ h, ?_⟩
  induction n with
  | zero => exact (visited_zero_cell m s x y theta).1.le
  | succ n ih =>
    rw [visited_succ]
    exact (advance_current0_le _ h).trans ih

theorem visited_x_ge (m : Libm) (s : Sim) (x y theta : ℚ)
    (h : 0 ≤ (ray_setup s.map x y (m.cos theta) (m.sin theta)).step0) (n : ℕ) :
    (visited m s x y theta n).current0 ≤ (visited m s x y theta (n + 1)).current0 ∧
      (start_cell s.map x y (m.cos theta) (m.sin theta)).1 ≤
        (visited m s x y theta n).current0 := by
  refine ⟨by rw [visited_succ]; exact advance_current0_ge _ h, ?_⟩
  induction n with
  | zero => exact (visited_zero_cell m s x y theta).1.ge
  | succ n ih =>
    rw [visited_succ]
    exact ih.trans (advance_current0_ge _ h)

theorem visited_y_le (m : Libm) (s : Sim) (x y theta : ℚ)
    (h : (ray_setup s.map x y (m.cos theta) (m.sin theta)).step1 ≤ 0) (n : ℕ) :
    (visited m s x y theta (n + 1)).current1 ≤ (visited m s x y theta n).current1 ∧
      (visited m s x y theta n).current1 ≤
        (start_cell s.map x y (m.cos theta) (m.sin theta)).2 := by
  refine ⟨by rw [visited_succ]; exact advance_current1_le _ h, ?_⟩
  induction n with
  | zero => exact (visited_zero_cell m s x y theta).2.le
  | succ n ih =>
    rw [visited_succ]
    exact (advance_current1_le _ h).trans ih

theorem visited_y_ge (m : Libm) (s : Sim) (x y theta : ℚ)
    (h : 0 ≤ (ray_setup s.map x y (m.cos theta) (m.sin theta)).step1) (n : ℕ) :
    (visited m s x y theta n).current1 ≤ (visited m s x y theta (n + 1)).current1 ∧
      (start_cell s.map x y (m.cos theta) (m.sin theta)).2 ≤
        (visited m s x y theta n).current1 := by
  refine ⟨by rw [visited_succ]; exact advance_current1_ge _ h, ?_⟩
  induction n with
  | zero => exact (visited_zero_cell m s x y theta).2.ge
  | succ n ih =>
    rw [visited_succ]
    exact ih.trans (advance_current1_ge _ h)

theorem calls_x_le (m : Libm) (s : Sim) (x y theta : ℚ)
    (h : (ray_setup s.map x y (m.cos theta) (m.sin theta)).step0 ≤ 0) (fuel : ℕ) :
    ∀ p ∈ (find_map_range_calls m s fuel x y theta).2,
      p.1 ≤ (start_cell s.map x y (m.cos theta) (m.sin theta)).1 := by
  intro p hp
  obtain ⟨r0, hr0, _, hp1⟩ := (ray_loop_inv m s (ray_setup s.map x y (m.cos theta) (m.sin theta))
    (fun r => r.current0 ≤ (start_cell s.map x y (m.cos theta) (m.sin theta)).1)
    (fun r hr => (advance_current0_le r h).trans hr) fuel
    (ray_init s.map x y (m.cos theta) (m.sin theta)) le_rfl).1 p hp
  rw [hp1]
  exact (advance_current0_le r0 h).trans hr0

theorem calls_x_ge (m : Libm) (s : Sim) (x y theta : ℚ)
    (h : 0 ≤ (ray_setup s.map x y (m.cos theta) (m.sin theta)).step0) (fuel : ℕ) :
    ∀ p ∈ (find_map_range_calls m s fuel x y theta).2,
      (start_cell s.map x y (m.cos theta) (m.sin theta)).1 ≤ p.1 := by
  intro p hp
  obtain ⟨r0, hr0, _, hp1⟩ := (ray_loop_inv m s (ray_setup s.map x y (m.cos theta) (m.sin theta))
    (fun r => (start_cell s.map x y (m.cos theta) (m.sin theta)).1 ≤ r.current0)
    (fun r hr => hr.trans (advance_current0_ge r h)) fuel
    (ray_init s.map x y (m.cos theta) (m.sin theta)) le_rfl).1 p hp
  rw [hp1]
  exact hr0.trans (advance_current0_ge r0 h)

theorem calls_y_le (m : Libm) (s : Sim) (x y theta : ℚ)
    (h : (ray_setup s.map x y (m.cos theta) (m.sin theta)).step1 ≤ 0) (fuel : ℕ) :
    ∀ p ∈ (find_map_range_calls m s fuel x y theta).2,
      p.2 ≤ (start_cell s.map x y (m.cos theta) (m.sin theta)).2 := by
  intro p hp
  obtain ⟨r0, hr0, _, hp1⟩ := (ray_loop_inv m s (ray_setup s.map x y (m.cos theta) (m.sin theta))
    (fun r => r.current1 ≤ (start_cell s.map x y (m.cos theta) (m.sin theta)).2)
    (fun r hr => (advance_current1_le r h).trans hr) fuel
    (ray_init s.map x y (m.cos theta) (m.sin theta)) le_rfl).1 p hp
  rw [hp1]
  exact (advance_current1_le r0 h).trans hr0

theorem calls_y_ge (m : Libm) (s : Sim) (x y theta : ℚ)
    (h : 0 ≤ (ray_setup s.map x y (m.cos theta) (m.sin theta)).step1) (fuel : ℕ) :
    ∀ p ∈ (find_map_range_calls m s fuel x y theta).2,
      (start_cell s.map x y (m.cos theta) (m.sin theta)).2 ≤ p.2 := by
  intro p hp
  obtain ⟨r0, hr0, _, hp1⟩ := (ray_loop_inv m s (ray_setup s.map x y (m.cos theta) (m.sin theta))
    (fun r => (start_cell s.map x y (m.cos theta) (m.sin theta)).2 ≤ r.current1)
    (fun r hr => hr.trans (advance_current1_ge r h)) fuel
    (ray_init s.map x y (m.cos theta) (m.sin theta)) le_rfl).1 p hp
  rw [hp1]
  exact hr0.trans (advance_current1_ge r0 h)

/-- C17: the traversal moves against the ray direction.  When `cos(theta) > 0`
the x index never increases from one iteration to the next and stays at or
below the start cell's, and it never decreases and stays at or above it when
`cos(theta) < 0`; likewise the y index with `sin(theta)`.  The same bounds hold
for every cell the function examines, so with `cos(theta) > 0` a value other
than `l_max_range` is the range of an occupied cell whose x index does not
exceed the start cell's. -/
theorem traversal_against_ray (m : Libm) (s : Sim) (x y theta : ℚ) :
    (0 < m.cos theta →
      (∀ n, (visited m s x y theta (n + 1)).current0 ≤ (visited m s x y theta n).current0 ∧
        (visited m s x y theta n).current0 ≤
          (start_cell s.map x y (m.cos theta) (m.sin theta)).1) ∧
      (∀ fuel, ∀ p ∈ (find_map_range_calls m s fuel x y theta).2,
        p.1 ≤ (start_cell s.map x y (m.cos theta) (m.sin theta)).1)) ∧
    (m.cos theta < 0 →
      (∀ n, (visited m s x y theta n).current0 ≤ (visited m s x y theta (n + 1)).current0 ∧
        (start_cell s.map x y (m.cos theta) (m.sin theta)).1 ≤
          (visited m s x y theta n).current0) ∧
      (∀ fuel, ∀ p ∈ (find_map_range_calls m s fuel x y theta).2,
        (start_cell s.map x y (m.cos theta) (m.sin theta)).1 ≤ p.1)) ∧
    (0 < m.sin theta →
      (∀ n, (visited m s x y theta (n + 1)).current1 ≤ (visited m s x y theta n).current1 ∧
        (visited m s x y theta n).current1 ≤
          (start_cell s.map x y (m.cos theta) (m.sin theta)).2) ∧
      (∀ fuel, ∀ p ∈ (find_map_range_calls m s fuel x y theta).2,
        p.2 ≤ (start_cell s.map x y (m.cos theta) (m.sin theta)).2)) ∧
    (m.sin theta < 0 →
      (∀ n, (visited m s x y theta n).current1 ≤ (visited m s x y theta (n + 1)).current1 ∧
        (start_cell s.map x y (m.cos theta) (m.sin theta)).2 ≤
          (visited m s x y theta n).current1) ∧
      (∀ fuel, ∀ p ∈ (find_map_range_calls m s fuel x y theta).2,
        (start_cell s.map x y (m.cos theta) (m.sin theta)).2 ≤ p.2)) ∧
    (0 < m.cos theta → ∀ fuel q, find_map_range m s fuel x y theta = .ok q →
      q = s.l_max_range ∨
        ∃ cx cy occ, cx ≤ (start_cell s.map x y (m.cos theta) (m.sin theta)).1 ∧
          get_map_occupancy s.map cx cy = some occ ∧ 60 ≤ occ ∧
          q = m.sqrt
            (((cx - (start_cell s.map x y (m.cos theta) (m.sin theta)).1 : ℤ) : ℚ) ^ 2 +
              ((cy - (start_cell s.map x y (m.cos theta) (m.sin theta)).2 : ℤ) : ℚ) ^ 2)
            * s.map.resolution) := by
  refine ⟨?_, ?_, ?_, ?_, ?_⟩
  · intro h
    have hs := (step0_of_pos s.map x y (m.sin theta) h).le.trans (by norm_num : (-1 : ℤ) ≤ 0)
    exact ⟨visited_x_le m s x y theta hs, calls_x_le m s x y theta hs⟩
  · intro h
    have hs : (0 : ℤ) ≤ (ray_setup s.map x y (m.cos theta) (m.sin theta)).step0 := by
      rw [step0_of_neg s.map x y (m.sin theta) h]
      norm_num
    exact ⟨visited_x_ge m s x y theta hs, calls_x_ge m s x y theta hs⟩
  · intro h
    have hs := (step1_of_pos s.map x y (m.cos theta) h).le.trans (by norm_num : (-1 : ℤ) ≤ 0)
    exact ⟨visited_y_le m s x y theta hs, calls_y_le m s x y theta hs⟩
  · intro h
    have hs : (0 : ℤ) ≤ (ray_setup s.map x y (m.cos theta) (m.sin theta)).step1 := by
      rw [step1_of_neg s.map x y (m.cos theta) h]
      norm_num
    exact ⟨visited_y_ge m s x y theta hs, calls_y_ge m s x y theta hs⟩
  · intro h fuel q hq
    have hs := (step0_of_pos s.map x y (m.sin theta) h).le.trans (by norm_num : (-1 : ℤ) ≤ 0)
    rcases (ray_loop_inv m s (ray_setup s.map x y (m.cos theta) (m.sin theta))
      (fun r => r.current0 ≤ (start_cell s.map x y (m.cos theta) (m.sin theta)).1)
      (fun r hr => (advance_current0_le r hs).trans hr) fuel
      (ray_init s.map x y (m.cos theta) (m.sin theta)) le_rfl).2 q hq with
      h1 | ⟨r0, occ, hr0, _, hocc, h60, hq1⟩
    · exact Or.inl h1
    · exact Or.inr ⟨_, _, occ, (advance_current0_le r0 hs).trans hr0, hocc, h60, hq1⟩

/-- Witness of C17: on the 10 by 10 example grid the ray from (11/2, 1/2) at
heading 0 is at or below x index 5 after three iterations. -/
theorem traversal_against_ray_witness :
    (visited ratLibm sim_5_0 (11 / 2) (1 / 2) 0 3).current0 ≤
      (start_cell sim_5_0.map (11 / 2) (1 / 2) (ratLibm.cos 0) (ratLibm.sin 0)).1 :=
  (((traversal_against_ray ratLibm sim_5_0 (11 / 2) (1 / 2) 0).1
    (by norm_num [ratLibm])).1 3).2

/-- C18: beam `i` of `update_scan` is cast at heading
`theta + l_fov/2 + i*l_fov/l_beams`: entry `i` of `ranges` is the value of
`find_map_range` at that heading.  Beam 0 is cast at `theta + angle_max`, which
is not `theta + angle_min` unless `l_fov = 0`, the last beam at
`theta + 3*l_fov/2`, and for `l_fov > 0` every heading lies in
`[theta + l_fov/2, theta + 3*l_fov/2]`, beyond `theta + angle_max` for every
beam but the first. -/
theorem beam_headings_offset (m : Libm) (s : Sim) (now x y theta : ℚ) :
    (∀ fuel scan, update_scan m s fuel now x y theta = .ok scan →
      (∀ i, i ≤ s.l_beams → ∃ q, scan.ranges.get? i = some q ∧
        find_map_range m s fuel x y (beam_heading s theta i) = .ok q) ∧
      (∀ i : ℕ, beam_heading s theta i =
        theta - scan.angle_min + (i : ℚ) * scan.angle_increment) ∧
      beam_heading s theta 0 = theta + scan.angle_max ∧
      (s.l_fov ≠ 0 → beam_heading s theta 0 ≠ theta + scan.angle_min) ∧
      (0 < s.l_fov → 0 < s.l_beams → ∀ i : ℕ, 0 < i →
        theta + scan.angle_max < beam_heading s theta i)) ∧
    (∀ i : ℕ, beam_heading s theta i =
      theta + s.l_fov / 2 + (i : ℚ) * s.l_fov / (s.l_beams : ℚ)) ∧
    (0 < s.l_beams → beam_heading s theta s.l_beams = theta + 3 * s.l_fov / 2) ∧
    (0 < s.l_fov → 0 < s.l_beams → ∀ i : ℕ, i ≤ s.l_beams →
      theta + s.l_fov / 2 ≤ beam_heading s theta i ∧
        beam_heading s theta i ≤ theta + 3 * s.l_fov / 2) := by
  have hform : ∀ i : ℕ, beam_heading s theta i =
      theta + s.l_fov / 2 + (i : ℚ) * s.l_fov / (s.l_beams : ℚ) := by
    intro i
    unfold beam_heading
    ring
  have hinc : 0 < s.l_fov → 0 < s.l_beams → (0 : ℚ) < s.l_fov / (s.l_beams : ℚ) := by
    intro hf hb
    exact div_pos hf (by exact_mod_cast hb)
  refine ⟨?_, hform, ?_, ?_⟩
  · intro fuel scan h
    obtain ⟨hloop, _, _, h2, h3, h4, _, _, _, _⟩ := update_scan_ok h
    obtain ⟨tail, h5, _, h7⟩ := scan_loop_spec m s fuel x y theta _ _ (s.l_beams + 1) 0 []
      scan.ranges rfl hloop
    rw [List.nil_append] at h5
    refine ⟨?_, ?_, ?_, ?_, ?_⟩
    · intro i hi
      obtain ⟨q, h8, h9⟩ := h7 i (by omega)
      rw [Nat.zero_add] at h9
      exact ⟨q, by rw [h5]; exact h8, h9⟩
    · intro i
      rw [h2, h4]
      rfl
    · rw [h3]
      unfold beam_heading
      ring
    · intro hf hcon
      rw [h2] at hcon
      unfold beam_heading at hcon
      apply hf
      linarith
    · intro hf hb i hi
      rw [h3]
      unfold beam_heading
      have hi1 : (0 : ℚ) < (i : ℚ) := by exact_mod_cast hi
      have := mul_pos hi1 (hinc hf hb)
      linarith
  · intro hb
    have hne : (s.l_beams : ℚ) ≠ 0 := by exact_mod_cast hb.ne'
    unfold beam_heading
    rw [mul_div_cancel₀ _ hne]
    ring
  · intro hf hb i hi
    have hne : (s.l_beams : ℚ) ≠ 0 := by exact_mod_cast hb.ne'
    have hi0 : (0 : ℚ) ≤ (i : ℚ) := by exact_mod_cast Nat.zero_le i
    have hi1 : (i : ℚ) ≤ (s.l_beams : ℚ) := by exact_mod_cast hi
    have h1 := mul_nonneg hi0 (hinc hf hb).le
    have h2 := mul_le_mul_of_nonneg_right hi1 (hinc hf hb).le
    rw [mul_div_cancel₀ _ hne] at h2
    unfold beam_heading
    constructor <;> linarith

/-- Witness of C18 on the 10 by 10 example grid: a scan is returned and its
first beam is cast at `theta + angle_max`. -/
theorem beam_headings_offset_witness :
    ∃ scan, update_scan ratLibm sim_5_0 20 0 (1 / 2) (1 / 2) 0 = .ok scan ∧
      beam_heading sim_5_0 0 0 = 0 + scan.angle_max ∧
      beam_heading sim_5_0 0 0 ≠ 0 + scan.angle_min := by
  obtain ⟨scan, hscan⟩ := update_scan_returns ratLibm sim_5_0 0 (1 / 2) (1 / 2) 0
    (by norm_num [sim_5_0, grid_5_0, unit_grid]) sim_5_0_length ratLibm_dir 20
    (by norm_num [sim_5_0, grid_5_0, unit_grid])
  have h := (beam_headings_offset ratLibm sim_5_0 0 (1 / 2) (1 / 2) 0).1 20 scan hscan
  exact ⟨scan, hscan, h.2.2.1, h.2.2.2.1 (by norm_num [sim_5_0])⟩

end laser_sim
